import Mathlib

/-!
The filtering engine of `main.c` (czmil_noise_filter).

A shallow embedding of the per-record filtering loop of `src/main.c`
(lines 190-335) and of the statements made about it.

* Records are explicit values: a point record (`CZMIL_CPF_Data`) holds, per
  channel index, the list of its returns (`cpf.returns[j]` is the length of
  that list, `cpf.channel[j][k]` its `k`-th entry); a waveform record
  (`CZMIL_CWF_Data`) holds the packet count and the samples per channel.
* The local variables `kill_count`, `mod_flag` and `check_it` of `main` are
  threaded through the loops as explicit state.
* `exit (-1)` is `none`.
-/

namespace CzmilNoiseFilter

/-! ## Data model -/

/-- Modelled from the spec: the five macros of `czmil.h` that `main.c` uses.
The header is not part of the sources, so their values are parameters:
two masks of the status word and three filter reason codes. -/
structure CzmilConsts where
  CZMIL_RETURN_INVAL : Nat
  CZMIL_RETURN_FILTER_INVAL : Nat
  CZMIL_WAVEFORM_VALID : Nat
  CZMIL_DIGITIZER_NOISE : Nat
  CZMIL_START_AMP_EXCEEDS_THRESHOLD : Nat
deriving DecidableEq, Repr

/-- Modelled from the spec: what the spec says of the macros of `czmil.h`.
The filter-invalid mask is not empty and is part of `CZMIL_RETURN_INVAL`
(a return is valid when the base-invalid and the filter-invalid bits are both
clear), and the three reason codes are an enumeration (pairwise distinct). -/
def CzmilConsts.WellFormed (C : CzmilConsts) : Prop :=
  C.CZMIL_RETURN_FILTER_INVAL ≠ 0 ∧
  C.CZMIL_RETURN_FILTER_INVAL &&& C.CZMIL_RETURN_INVAL = C.CZMIL_RETURN_FILTER_INVAL ∧
  C.CZMIL_DIGITIZER_NOISE ≠ C.CZMIL_START_AMP_EXCEEDS_THRESHOLD ∧
  C.CZMIL_DIGITIZER_NOISE ≠ C.CZMIL_WAVEFORM_VALID ∧
  C.CZMIL_START_AMP_EXCEEDS_THRESHOLD ≠ C.CZMIL_WAVEFORM_VALID

instance (C : CzmilConsts) : Decidable C.WellFormed := by
  unfold CzmilConsts.WellFormed; infer_instance

/-- Modelled from the spec: the base-invalid mask, the bits of
`CZMIL_RETURN_INVAL` that are not the filter-invalid bits. -/
def CzmilConsts.baseInvalMask (C : CzmilConsts) : Nat :=
  C.CZMIL_RETURN_INVAL ^^^ (C.CZMIL_RETURN_INVAL &&& C.CZMIL_RETURN_FILTER_INVAL)

/-- Modelled from the spec: a return of `czmil.h` (`CZMIL_Return_Data`), with the
two fields `main.c` reads and writes; `measurement` stands for all the other
fields (position, elevation, reflectance, ...), which `main.c` never names. -/
structure CZMIL_Return_Data where
  status : Nat
  filter_reason : Nat
  measurement : Nat
deriving DecidableEq, Repr

/-- Modelled from the spec: a point record of `czmil.h` (`CZMIL_CPF_Data`).
`channel j` is the list `cpf.channel[j][0 .. cpf.returns[j] - 1]`. -/
structure CZMIL_CPF_Data where
  channel : Nat → List CZMIL_Return_Data

/-- Modelled from the spec: a waveform record of `czmil.h` (`CZMIL_CWF_Data`):
`number_of_packets j` is `cwf.number_of_packets[j]` and `channel j k` is
`cwf.channel[j][k]`. -/
structure CZMIL_CWF_Data where
  number_of_packets : Nat → Nat
  channel : Nat → Nat → Int

/-- The configuration read from the command line (lines 77, 83, 92-144):
`channel[9]`, `threshold`, `shal_amp` and `deep_amp`. -/
structure Config where
  channel : Nat → Bool
  threshold : Int
  shal_amp : Int
  deep_amp : Int

/-- The variables the loops over one channel update: the returns of the
channel, `kill_count` and `mod_flag`. `kill_count` is a mathematical integer
(only ever incremented). -/
structure ChanState where
  returns : List CZMIL_Return_Data
  kill_count : Nat
  mod_flag : Bool
deriving DecidableEq, Repr

/-- The variables the loop over the channels of one record updates. -/
structure RecState where
  cpf : CZMIL_CPF_Data
  kill_count : Nat
  mod_flag : Bool

/-! ## Operations on the status word -/

/-- The C expression `s & ~m` on a non-negative status word: the bits of `m`
are cleared, every other bit is kept. -/
def andNot (s m : Nat) : Nat := s ^^^ (s &&& m)

/-- Conversion of an `int` to `int16_t` (the assignment to `diff[k - 1]`,
line 258): the value modulo 2^16, in -32768 .. 32767. -/
def toInt16 (x : Int) : Int := (x + 32768) % 65536 - 32768

/-- `!(r.status & CZMIL_RETURN_INVAL)` (lines 235, 267, 304). -/
def isValid (C : CzmilConsts) (r : CZMIL_Return_Data) : Bool :=
  r.status &&& C.CZMIL_RETURN_INVAL == 0

/-- `r.status & CZMIL_RETURN_FILTER_INVAL` as a truth value (line 224). -/
def isFilterInval (C : CzmilConsts) (r : CZMIL_Return_Data) : Bool :=
  r.status &&& C.CZMIL_RETURN_FILTER_INVAL != 0

/-- The base-invalid bit of a return is set. -/
def isBaseInval (C : CzmilConsts) (r : CZMIL_Return_Data) : Bool :=
  r.status &&& C.baseInvalMask != 0

/-! ## The loops of `main` -/

/-- Lines 222-226: the test of the stale reset, `threshold > 0`, the
filter-invalid bit set and the reason `CZMIL_DIGITIZER_NOISE`. -/
def isStale (C : CzmilConsts) (threshold : Int) (r : CZMIL_Return_Data) : Bool :=
  decide (threshold > 0) && isFilterInval C r &&
    (r.filter_reason == C.CZMIL_DIGITIZER_NOISE)

/-- Lines 222-233: the stale reset of one return: the filter-invalid bit is
cleared and the reason set to `CZMIL_WAVEFORM_VALID`. -/
def resetReturn (C : CzmilConsts) (threshold : Int) (r : CZMIL_Return_Data) :
    CZMIL_Return_Data :=
  if isStale C threshold r then
    { r with status := andNot r.status C.CZMIL_RETURN_FILTER_INVAL,
             filter_reason := C.CZMIL_WAVEFORM_VALID }
  else r

/-- Lines 269-270 and 306-307: the filter-invalid bit is set and the reason
recorded. -/
def markReturn (C : CzmilConsts) (reason : Nat) (r : CZMIL_Return_Data) :
    CZMIL_Return_Data :=
  { r with status := r.status ||| C.CZMIL_RETURN_FILTER_INVAL, filter_reason := reason }

/-- Lines 217-236: the loop over the returns of a channel that resets stale
digitizer-noise invalidations (when `threshold > 0`) and computes `check_it`.
The result is the returns, `check_it` and `mod_flag`. -/
def staleLoop (C : CzmilConsts) (threshold : Int) :
    List CZMIL_Return_Data → Bool → Bool → List CZMIL_Return_Data × Bool × Bool
  | [], check_it, mod_flag => ([], check_it, mod_flag)
  | r :: rs, check_it, mod_flag =>
    let r1 : CZMIL_Return_Data := resetReturn C threshold r
    let mod1 : Bool := if isStale C threshold r then true else mod_flag
    let check1 : Bool := if isValid C r1 then true else check_it
    let rest := staleLoop C threshold rs check1 mod1
    (r1 :: rest.1, rest.2.1, rest.2.2)

/-- Lines 265-274 and 302-311: the loop over the returns of a channel that
marks every valid return filter-invalid with the given reason, counting each
one in `kill_count` and setting `mod_flag`. -/
def condemnLoop (C : CzmilConsts) (reason : Nat) :
    List CZMIL_Return_Data → Nat → Bool → ChanState
  | [], kill_count, mod_flag => ⟨[], kill_count, mod_flag⟩
  | r :: rs, kill_count, mod_flag =>
    if isValid C r then
      let rest := condemnLoop C reason rs (kill_count + 1) true
      { rest with returns := markReturn C reason r :: rest.returns }
    else
      let rest := condemnLoop C reason rs kill_count mod_flag
      { rest with returns := r :: rest.returns }

/-- Line 258: `diff[k]`, the first difference `cwf.channel[j][k + 1] -
cwf.channel[j][k]` stored in an `int16_t`. -/
def diff (cwf : CZMIL_CWF_Data) (j k : Nat) : Int :=
  toInt16 (cwf.channel j (k + 1) - cwf.channel j k)

/-- Lines 261-276: `n` iterations of the loop over `k`, from the given `k` on:
whenever the second difference exceeds the threshold the condemnation loop
runs over the returns of the channel. -/
def noiseLoop (C : CzmilConsts) (threshold : Int) (cwf : CZMIL_CWF_Data) (j : Nat) :
    Nat → Nat → ChanState → ChanState
  | 0, _, st => st
  | n + 1, k, st =>
    let st1 : ChanState :=
      if diff cwf j k - diff cwf j (k - 1) > threshold then
        condemnLoop C C.CZMIL_DIGITIZER_NOISE st.returns st.kill_count st.mod_flag
      else st
    noiseLoop C threshold cwf j n (k + 1) st1

/-- Lines 245-279: the digitizer noise check of one channel. `length` is
`cwf.number_of_packets[j] * 64`; `calloc (length - 1, ...)` fails when
`length` is 0 (the count is then -1) and the program exits. The loop over `k`
runs from 1 to `length - 2`. -/
def noiseCheck (C : CzmilConsts) (threshold : Int) (cwf : CZMIL_CWF_Data) (j : Nat)
    (st : ChanState) : Option ChanState :=
  if threshold > 0 then
    let length : Nat := cwf.number_of_packets j * 64
    if length = 0 then none
    else some (noiseLoop C threshold cwf j (length - 2) 1 st)
  else some st

/-- Lines 284-298: `check_filt`, the starting amplitude check. Channel index 8
is compared with `deep_amp`, every other one with `shal_amp`. -/
def ampCheck (cfg : Config) (cwf : CZMIL_CWF_Data) (j : Nat) : Bool :=
  if j = 8 then
    decide (cfg.deep_amp > 0) && decide (cwf.channel j 0 > cfg.deep_amp)
  else
    decide (cfg.shal_amp > 0) && decide (cwf.channel j 0 > cfg.shal_amp)

/-- Lines 300-312: the amplitude condemnation. -/
def ampCondemn (C : CzmilConsts) (cfg : Config) (cwf : CZMIL_CWF_Data) (j : Nat)
    (st : ChanState) : ChanState :=
  if ampCheck cfg cwf j then
    condemnLoop C C.CZMIL_START_AMP_EXCEEDS_THRESHOLD st.returns st.kill_count st.mod_flag
  else st

/-- Lines 212-313: the body of `if (channel[j])` on the returns of channel
`j`. -/
def processChannel (C : CzmilConsts) (cfg : Config) (cwf : CZMIL_CWF_Data) (j : Nat)
    (st : ChanState) : Option ChanState :=
  let s := staleLoop C cfg.threshold st.returns false st.mod_flag
  let st1 : ChanState := ⟨s.1, st.kill_count, s.2.2⟩
  if s.2.1 then
    (noiseCheck C cfg.threshold cwf j st1).map (ampCondemn C cfg cwf j)
  else some st1

/-- Lines 210-314: one iteration of the loop over `j`. -/
def channelStep (C : CzmilConsts) (cfg : Config) (cwf : CZMIL_CWF_Data) (j : Nat)
    (st : RecState) : Option RecState :=
  if cfg.channel j then
    (processChannel C cfg cwf j ⟨st.cpf.channel j, st.kill_count, st.mod_flag⟩).map
      (fun r => ⟨⟨fun i => if i = j then r.returns else st.cpf.channel i⟩,
                 r.kill_count, r.mod_flag⟩)
  else some st

/-- Lines 208-315: `n` iterations of the loop over `j`, from the given `j`
on. -/
def channelLoop (C : CzmilConsts) (cfg : Config) (cwf : CZMIL_CWF_Data) :
    Nat → Nat → RecState → Option RecState
  | 0, _, st => some st
  | n + 1, j, st => (channelStep C cfg cwf j st).bind (channelLoop C cfg cwf n (j + 1))

/-- Lines 206-315: the processing of one record: `mod_flag = NVFalse`, then the
loop `for (j = 0 ; j < 8 ; j++)`. -/
def processRecord (C : CzmilConsts) (cfg : Config) (cwf : CZMIL_CWF_Data)
    (cpf : CZMIL_CPF_Data) (kill_count : Nat) : Option RecState :=
  channelLoop C cfg cwf 8 0 ⟨cpf, kill_count, false⟩

/-- Lines 190-335: the pass over the records of the files. Each entry of the
store is a point record with its waveform record; a record is written back
(`czmil_update_cpf_return_status`) when `mod_flag` is set. The result is the
point records as stored after the pass, and `kill_count`. -/
def runFrom (C : CzmilConsts) (cfg : Config) :
    List (CZMIL_CPF_Data × CZMIL_CWF_Data) → Nat → Option (List CZMIL_CPF_Data × Nat)
  | [], kill_count => some ([], kill_count)
  | (cpf, cwf) :: rest, kill_count =>
    (processRecord C cfg cwf cpf kill_count).bind fun st =>
      (runFrom C cfg rest st.kill_count).map fun out =>
        ((if st.mod_flag then st.cpf else cpf) :: out.1, out.2)

/-- The whole pass, with `kill_count = 0` at the start (line 77). -/
def run (C : CzmilConsts) (cfg : Config)
    (store : List (CZMIL_CPF_Data × CZMIL_CWF_Data)) : Option (List CZMIL_CPF_Data × Nat) :=
  runFrom C cfg store 0

/-! ## Derived notions used in the statements -/

/-- The returns of a channel after the stale reset (the first component of
`staleLoop`). -/
def afterReset (C : CzmilConsts) (threshold : Int) (rets : List CZMIL_Return_Data) :
    List CZMIL_Return_Data :=
  (staleLoop C threshold rets false false).1

/-- Line 263: the test on the second difference at index `k`. -/
def exceedsAt (threshold : Int) (cwf : CZMIL_CWF_Data) (j k : Nat) : Bool :=
  decide (diff cwf j k - diff cwf j (k - 1) > threshold)

/-- The test of line 263 succeeds at one of the `n` indices from `k` on. -/
def exceedsIn (threshold : Int) (cwf : CZMIL_CWF_Data) (j : Nat) : Nat → Nat → Bool
  | 0, _ => false
  | n + 1, k => exceedsAt threshold cwf j k || exceedsIn threshold cwf j n (k + 1)

/-- The noise detector fires on channel `j`: `threshold > 0` and the test of
line 263 succeeds at some `k` with `1 ≤ k < length - 1`. -/
def noiseFired (cfg : Config) (cwf : CZMIL_CWF_Data) (j : Nat) : Bool :=
  decide (cfg.threshold > 0) &&
    exceedsIn cfg.threshold cwf j (cwf.number_of_packets j * 64 - 2) 1

/-- A return is filter-invalid with the given reason. -/
def condemnedWith (C : CzmilConsts) (reason : Nat) (r : CZMIL_Return_Data) : Prop :=
  isFilterInval C r = true ∧ r.filter_reason = reason

instance (C : CzmilConsts) (reason : Nat) (r : CZMIL_Return_Data) :
    Decidable (condemnedWith C reason r) := by
  unfold condemnedWith; infer_instance

/-- One return through a condemnation loop: marked when valid, else kept. -/
def condemnReturn (C : CzmilConsts) (reason : Nat) (r : CZMIL_Return_Data) :
    CZMIL_Return_Data :=
  if isValid C r then markReturn C reason r else r

/-- The run exits in the noise check of channel `j` (the allocation of line
250): a return is valid after the stale reset, `threshold > 0` and the
waveform of the channel has no packet. -/
def chanAborts (C : CzmilConsts) (cfg : Config) (cwf : CZMIL_CWF_Data) (j : Nat)
    (rets : List CZMIL_Return_Data) : Bool :=
  (afterReset C cfg.threshold rets).any (isValid C) && decide (cfg.threshold > 0) &&
    decide (cwf.number_of_packets j * 64 = 0)

/-- The number of returns of a channel that are valid after the stale reset. -/
def validAfterReset (C : CzmilConsts) (cfg : Config) (rets : List CZMIL_Return_Data) : Nat :=
  (afterReset C cfg.threshold rets).countP (isValid C)

/-! ## Concrete inputs -/

/-- A well-formed choice of the constants: the filter-invalid bit is bit 0, the
base-invalid bit is bit 1, and the reasons are 0 (valid), 24 and 25. -/
def czmil : CzmilConsts := ⟨3, 1, 0, 24, 25⟩

/-- The waveform record whose channel 0 holds `[0, 0, 0, 100, 0, 0, 0]` padded
with zeros to one packet; every other channel is one packet of zeros. -/
def spikeCwf : CZMIL_CWF_Data :=
  ⟨fun _ => 1, fun j k => if j = 0 ∧ k = 3 then 100 else 0⟩


/-- Channel 0 selected, `threshold = 50`, both amplitude ceilings disabled. -/
def cfg50 : Config := ⟨fun j => j == 0, 50, 0, 0⟩

/-- Channel 0 selected, `threshold = 250`, both amplitude ceilings disabled. -/
def cfg250 : Config := ⟨fun j => j == 0, 250, 0, 0⟩

/-- The returns of a channel: one valid, one base-invalid, one filter-invalid
for digitizer noise, one filter-invalid for the start amplitude. -/
def fourReturns : List CZMIL_Return_Data :=
  [⟨0, 0, 7⟩, ⟨2, 0, 8⟩, ⟨1, 24, 9⟩, ⟨1, 25, 10⟩]

/-- A waveform record whose channel 0 starts at 500 and has spikes at the
samples 3 and 10 (one packet); every other channel is one packet of zeros. -/
def loudCwf : CZMIL_CWF_Data :=
  ⟨fun _ => 1, fun j k => if j = 0 then (if k = 0 then 500 else if k = 3 ∨ k = 10 then 100 else 0)
    else 0⟩

/-- Channel 0 selected, `threshold = 50`, shallow ceiling 100, deep ceiling
disabled. -/
def cfgBoth : Config := ⟨fun j => j == 0, 50, 100, 0⟩

/-- Channel 0 selected, noise filter disabled, shallow ceiling 100, deep ceiling
disabled. -/
def cfgShal : Config := ⟨fun j => j == 0, 0, 100, 0⟩

/-! ## One channel and one record in closed form -/

/-- The returns of a processed channel at the end of the pass over it. -/
def chanFinal (C : CzmilConsts) (cfg : Config) (cwf : CZMIL_CWF_Data) (j : Nat)
    (rets : List CZMIL_Return_Data) : List CZMIL_Return_Data :=
  if noiseFired cfg cwf j then
    (afterReset C cfg.threshold rets).map (condemnReturn C C.CZMIL_DIGITIZER_NOISE)
  else if ampCheck cfg cwf j then
    (afterReset C cfg.threshold rets).map (condemnReturn C C.CZMIL_START_AMP_EXCEEDS_THRESHOLD)
  else afterReset C cfg.threshold rets

/-- What the pass over a processed channel adds to `kill_count`. -/
def chanKills (C : CzmilConsts) (cfg : Config) (cwf : CZMIL_CWF_Data) (j : Nat)
    (rets : List CZMIL_Return_Data) : Nat :=
  if noiseFired cfg cwf j || ampCheck cfg cwf j then validAfterReset C cfg rets else 0

/-- The pass over a processed channel sets `mod_flag`. -/
def chanMod (C : CzmilConsts) (cfg : Config) (cwf : CZMIL_CWF_Data) (j : Nat)
    (rets : List CZMIL_Return_Data) : Bool :=
  rets.any (isStale C cfg.threshold) ||
    ((noiseFired cfg cwf j || ampCheck cfg cwf j) &&
      (afterReset C cfg.threshold rets).any (isValid C))

/-- The run exits in one of the `n` channels from `j` on. -/
def recAborts (C : CzmilConsts) (cfg : Config) (cwf : CZMIL_CWF_Data) (cpf : CZMIL_CPF_Data) :
    Nat → Nat → Bool
  | 0, _ => false
  | n + 1, j =>
    (cfg.channel j && chanAborts C cfg cwf j (cpf.channel j)) || recAborts C cfg cwf cpf n (j + 1)

/-- What the `n` channels from `j` on add to `kill_count`. -/
def recKills (C : CzmilConsts) (cfg : Config) (cwf : CZMIL_CWF_Data) (cpf : CZMIL_CPF_Data) :
    Nat → Nat → Nat
  | 0, _ => 0
  | n + 1, j =>
    (if cfg.channel j then chanKills C cfg cwf j (cpf.channel j) else 0) +
      recKills C cfg cwf cpf n (j + 1)

/-- One of the `n` channels from `j` on sets `mod_flag`. -/
def recMod (C : CzmilConsts) (cfg : Config) (cwf : CZMIL_CWF_Data) (cpf : CZMIL_CPF_Data) :
    Nat → Nat → Bool
  | 0, _ => false
  | n + 1, j =>
    (cfg.channel j && chanMod C cfg cwf j (cpf.channel j)) || recMod C cfg cwf cpf n (j + 1)

/-- The point record after the `n` channels from `j0` on have been passed
over. -/
def recFinal (C : CzmilConsts) (cfg : Config) (cwf : CZMIL_CWF_Data) (cpf : CZMIL_CPF_Data)
    (n j0 : Nat) : CZMIL_CPF_Data :=
  ⟨fun j =>
    if j0 ≤ j ∧ j < j0 + n ∧ cfg.channel j = true then chanFinal C cfg cwf j (cpf.channel j)
    else cpf.channel j⟩

/-- One return of a processed channel at the end of the pass over it. -/
def finalReturn (C : CzmilConsts) (cfg : Config) (cwf : CZMIL_CWF_Data) (j : Nat)
    (r : CZMIL_Return_Data) : CZMIL_Return_Data :=
  if noiseFired cfg cwf j then
    condemnReturn C C.CZMIL_DIGITIZER_NOISE (resetReturn C cfg.threshold r)
  else if ampCheck cfg cwf j then
    condemnReturn C C.CZMIL_START_AMP_EXCEEDS_THRESHOLD (resetReturn C cfg.threshold r)
  else resetReturn C cfg.threshold r

/-- Channel `j` is processed: it is selected and below the bound 8 of the loop
of line 208. -/
def processed (cfg : Config) (j : Nat) : Bool := decide (j < 8) && cfg.channel j

/-- A point record with four returns in channel 0, one in channel 8 and none
elsewhere. -/
def cpfA : CZMIL_CPF_Data :=
  ⟨fun j => if j = 0 then fourReturns else if j = 8 then [⟨0, 0, 11⟩] else []⟩

/-- A point record whose channel 0 holds a return with the base-invalid and the
filter-invalid bits both set and the reason digitizer-noise, then a valid
return. -/
def cpfBase : CZMIL_CPF_Data :=
  ⟨fun j => if j = 0 then [⟨3, 24, 9⟩, ⟨0, 0, 7⟩] else []⟩

/-- The point record without the return of index `m` of channel `j`. -/
def eraseReturn (cpf : CZMIL_CPF_Data) (j m : Nat) : CZMIL_CPF_Data :=
  ⟨fun i => if i = j then (cpf.channel i).eraseIdx m else cpf.channel i⟩

/-- Channels 0 and 8 (the flags -1 and -9) selected, noise filter and shallow
ceiling disabled, deep ceiling 100. -/
def cfgDeep : Config := ⟨fun j => j == 0 || j == 8, 0, 0, 100⟩

/-- A waveform record in which every channel is one packet that starts with the
sample 101. -/
def deepCwf : CZMIL_CWF_Data := ⟨fun _ => 1, fun _ k => if k = 0 then 101 else 0⟩

/-- A point record with one valid return in channel 0 and one in channel 8. -/
def deepCpf : CZMIL_CPF_Data :=
  ⟨fun j => if j = 0 then [⟨0, 0, 7⟩] else if j = 8 then [⟨0, 0, 11⟩] else []⟩

/-- Channel 0 selected, noise filter disabled (`threshold = -5`), shallow
ceiling 100. -/
def cfgOff : Config := ⟨fun j => j == 0, -5, 100, 0⟩

/-! ## The pass over the store in closed form -/

/-- The store after a pass: the point records as the pass left them, each with
the waveform record it had. -/
def restore (out : List CZMIL_CPF_Data) (store : List (CZMIL_CPF_Data × CZMIL_CWF_Data)) :
    List (CZMIL_CPF_Data × CZMIL_CWF_Data) :=
  out.zip (store.map Prod.snd)

/-- The run exits in one of the records. -/
def storeAborts (C : CzmilConsts) (cfg : Config) :
    List (CZMIL_CPF_Data × CZMIL_CWF_Data) → Bool
  | [] => false
  | (cpf, cwf) :: rest => recAborts C cfg cwf cpf 8 0 || storeAborts C cfg rest

/-- What the records add to `kill_count`. -/
def storeKills (C : CzmilConsts) (cfg : Config) :
    List (CZMIL_CPF_Data × CZMIL_CWF_Data) → Nat
  | [] => 0
  | (cpf, cwf) :: rest => recKills C cfg cwf cpf 8 0 + storeKills C cfg rest

/-- The point records after the pass. -/
def storeFinal (C : CzmilConsts) (cfg : Config)
    (store : List (CZMIL_CPF_Data × CZMIL_CWF_Data)) : List CZMIL_CPF_Data :=
  store.map (fun p => recFinal C cfg p.2 p.1 8 0)

/-- The number of returns that are filter-invalid with reason digitizer-noise
in the selected channels among the `n` channels from `j` on. -/
def noiseCondemnedIn (C : CzmilConsts) (cfg : Config) (cpf : CZMIL_CPF_Data) : Nat → Nat → Nat
  | 0, _ => 0
  | n + 1, j =>
    (if cfg.channel j then
        (cpf.channel j).countP (fun r => decide (condemnedWith C C.CZMIL_DIGITIZER_NOISE r))
      else 0) + noiseCondemnedIn C cfg cpf n (j + 1)

/-- The number of returns of processed channels (selected, index below 8) that
are filter-invalid with reason digitizer-noise, over all point records. -/
def storeNoiseCondemned (C : CzmilConsts) (cfg : Config) : List CZMIL_CPF_Data → Nat
  | [] => 0
  | cpf :: rest => noiseCondemnedIn C cfg cpf 8 0 + storeNoiseCondemned C cfg rest

/-- A store of one record: a valid return in channel 0 (and one in channel 8),
with the spike waveform. -/
def storeA : List (CZMIL_CPF_Data × CZMIL_CWF_Data) := [(deepCpf, spikeCwf)]

/-- The configuration with channel `j` not selected (its flag not given), all
else the same. -/
def deselect (cfg : Config) (j : Nat) : Config :=
  { cfg with channel := fun i => if i = j then false else cfg.channel i }

/-- The thresholds of `cfgBoth`, with the channels 0 and 1 selected. -/
def cfgBoth01 : Config := ⟨fun j => j == 0 || j == 1, 50, 100, 0⟩

/-- A waveform record with channel 0 as in `loudCwf` and a channel 1 that starts
at 300. -/
def loudCwf1 : CZMIL_CWF_Data :=
  ⟨fun _ => 1, fun j k => if j = 1 then (if k = 0 then 300 else 0) else loudCwf.channel j k⟩

/-- A point record with channel 0 as in `cpfA` and two valid returns in
channel 1. -/
def cpfA1 : CZMIL_CPF_Data :=
  ⟨fun j => if j = 1 then [⟨0, 0, 1⟩, ⟨0, 0, 2⟩] else cpfA.channel j⟩

/-! ## The validation of the arguments -/

/-- The value of an `int` sum as a 32-bit two's complement integer. C leaves the
overflow of `threshold + shal_amp + deep_amp` (line 159) undefined; it wraps on
the usual targets, and that is what is modelled. -/
def wrap32 (x : Int) : Int := (x + 2147483648) % 4294967296 - 2147483648

/-- Lines 149-157: `check_it` after `n` iterations of the loop over `i`, from
the given `i` on: some channel flag is set. -/
def anySelected (channel : Nat → Bool) : Nat → Nat → Bool
  | 0, _ => false
  | n + 1, i => if channel i then true else anySelected channel n (i + 1)

/-- Line 159: `check_filt = threshold + shal_amp + deep_amp`. -/
def check_filt (cfg : Config) : Int :=
  wrap32 (wrap32 (cfg.threshold + cfg.shal_amp) + cfg.deep_amp)

/-- Line 161: `usage ()` is called (and the program exits):
`!check_it || check_filt <= 0 || optind >= argc`. -/
def usageExit (cfg : Config) (optind argc : Int) : Bool :=
  !anySelected cfg.channel 9 0 || decide (check_filt cfg ≤ 0) || decide (optind ≥ argc)

/-- The arguments `-1 -a -2147483648 -s -1`: channel 0 selected, no threshold
above 0. -/
def cfgWrap : Config := ⟨fun j => j == 0, -2147483648, -1, 0⟩

/-! ## The values the detector compares -/

/-- Lines 261-263: the values `diff[k] - diff[k - 1]` that are compared with the
threshold, for `k` from 1 to `length - 2`. -/
def secondDiffs (cwf : CZMIL_CWF_Data) (j : Nat) : List Int :=
  (List.range' 1 (cwf.number_of_packets j * 64 - 2)).map
    (fun k => diff cwf j k - diff cwf j (k - 1))

/-! ## Prior noise decisions -/

/-- The return `r'` is `r`, or is `r` (filter-invalid bit clear, reason valid)
as a run that condemned it for digitizer noise left it: filter-invalid bit set,
reason digitizer-noise, all else equal. -/
def priorNoise (C : CzmilConsts) (r r' : CZMIL_Return_Data) : Prop :=
  r' = r ∨
    (isFilterInval C r = false ∧ r.filter_reason = C.CZMIL_WAVEFORM_VALID ∧
      r' = markReturn C C.CZMIL_DIGITIZER_NOISE r)

/-- The arguments `-9 -a 250`: the deep channel (index 8) selected, noise
threshold 250, both ceilings disabled. -/
def cfg9 : Config := ⟨fun j => j == 8, 250, 0, 0⟩

/-- A point record whose channel 8 holds one return with the filter-invalid bit
clear and the reason valid. -/
def cpfNew : CZMIL_CPF_Data := ⟨fun j => if j = 8 then [⟨0, 0, 11⟩] else []⟩

/-- The record `cpfNew` with its return filter-invalid for digitizer noise, as
a prior run would have left it. -/
def cpfOld : CZMIL_CPF_Data := ⟨fun j => if j = 8 then [⟨1, 24, 11⟩] else []⟩

/-- The arguments `-9 -a 50`: the deep channel (index 8) selected, noise
threshold 50, both ceilings disabled. -/
def cfg9at50 : Config := ⟨fun j => j == 8, 50, 0, 0⟩

/-- The waveform record whose channel 8 holds `[0, 0, 0, 100, 0, 0, 0]` padded
with zeros to one packet; every other channel is one packet of zeros. -/
def spikeCwf8 : CZMIL_CWF_Data :=
  ⟨fun _ => 1, fun j k => if j = 8 ∧ k = 3 then 100 else 0⟩

/-! # Theorems -/

/-! ## Bits of the status word -/

theorem testBit_andNot (s m i : Nat) :
    (andNot s m).testBit i = (s.testBit i && !m.testBit i) := by
  unfold andNot
  rw [Nat.testBit_xor, Nat.testBit_and]
  cases s.testBit i <;> cases m.testBit i <;> rfl

theorem land_eq_zero_iff (a b : Nat) :
    a &&& b = 0 ↔ ∀ i, (a.testBit i && b.testBit i) = false := by
  constructor
  · intro h i
    rw [← Nat.testBit_and, h, Nat.zero_testBit]
  · intro h
    apply Nat.eq_of_testBit_eq
    intro i
    rw [Nat.testBit_and, h, Nat.zero_testBit]

theorem testBit_of_subset {F I : Nat} (hF : F &&& I = F) (i : Nat) :
    F.testBit i = (F.testBit i && I.testBit i) := by
  rw [← Nat.testBit_and, hF]

/-- A status word with no bit of `I` has no bit of a part `F` of `I`. -/
theorem land_part_eq_zero {s F I : Nat} (hF : F &&& I = F) (h : s &&& I = 0) :
    s &&& F = 0 := by
  rw [land_eq_zero_iff] at h ⊢
  intro i
  have h1 := h i
  rw [testBit_of_subset hF i]
  revert h1
  cases s.testBit i <;> cases I.testBit i <;> cases F.testBit i <;> simp

/-- Setting a non-empty part `F` of `I` leaves a bit of `I` set. -/
theorem lor_land_ne_zero {F I : Nat} (s : Nat) (hF0 : F ≠ 0) (hF : F &&& I = F) :
    (s ||| F) &&& I ≠ 0 := by
  intro h
  apply hF0
  rw [land_eq_zero_iff] at h
  apply Nat.eq_of_testBit_eq
  intro i
  have h1 := h i
  rw [Nat.testBit_or] at h1
  rw [Nat.zero_testBit, testBit_of_subset hF i]
  revert h1
  cases s.testBit i <;> cases I.testBit i <;> cases F.testBit i <;> simp

theorem lor_land_self_ne_zero {F : Nat} (s : Nat) (hF0 : F ≠ 0) : (s ||| F) &&& F ≠ 0 := by
  intro h
  apply hF0
  rw [land_eq_zero_iff] at h
  apply Nat.eq_of_testBit_eq
  intro i
  have h1 := h i
  rw [Nat.testBit_or] at h1
  rw [Nat.zero_testBit]
  revert h1
  cases s.testBit i <;> cases F.testBit i <;> simp

theorem andNot_land_self (s F : Nat) : andNot s F &&& F = 0 := by
  rw [land_eq_zero_iff]
  intro i
  rw [testBit_andNot]
  cases s.testBit i <;> cases F.testBit i <;> rfl

/-- Clearing the bits that were just set gives back a word that had none of
them. -/
theorem andNot_lor_of_land_eq_zero {s F : Nat} (h : s &&& F = 0) : andNot (s ||| F) F = s := by
  rw [land_eq_zero_iff] at h
  apply Nat.eq_of_testBit_eq
  intro i
  have h1 := h i
  rw [testBit_andNot, Nat.testBit_or]
  revert h1
  cases s.testBit i <;> cases F.testBit i <;> simp

theorem andNot_of_land_eq_zero {s F : Nat} (h : s &&& F = 0) : andNot s F = s := by
  unfold andNot
  rw [h, Nat.xor_zero]

/-- The bits outside the mask are the same after the mask is set. -/
theorem andNot_lor (s F : Nat) : andNot (s ||| F) F = andNot s F := by
  apply Nat.eq_of_testBit_eq
  intro i
  rw [testBit_andNot, testBit_andNot, Nat.testBit_or]
  cases s.testBit i <;> cases F.testBit i <;> rfl

theorem andNot_andNot (s F : Nat) : andNot (andNot s F) F = andNot s F := by
  apply Nat.eq_of_testBit_eq
  intro i
  rw [testBit_andNot, testBit_andNot]
  cases s.testBit i <;> cases F.testBit i <;> rfl

theorem testBit_baseInvalMask (C : CzmilConsts) (i : Nat) :
    C.baseInvalMask.testBit i =
      (C.CZMIL_RETURN_INVAL.testBit i && !C.CZMIL_RETURN_FILTER_INVAL.testBit i) :=
  testBit_andNot _ _ i

/-- Setting the filter-invalid mask leaves the base-invalid bits as they are. -/
theorem lor_land_baseInvalMask (C : CzmilConsts) (s : Nat) :
    (s ||| C.CZMIL_RETURN_FILTER_INVAL) &&& C.baseInvalMask = s &&& C.baseInvalMask := by
  apply Nat.eq_of_testBit_eq
  intro i
  rw [Nat.testBit_and, Nat.testBit_and, Nat.testBit_or, testBit_baseInvalMask]
  cases s.testBit i <;> cases C.CZMIL_RETURN_FILTER_INVAL.testBit i <;>
    cases C.CZMIL_RETURN_INVAL.testBit i <;> rfl

/-- Clearing the filter-invalid mask leaves the base-invalid bits as they are. -/
theorem andNot_land_baseInvalMask (C : CzmilConsts) (s : Nat) :
    andNot s C.CZMIL_RETURN_FILTER_INVAL &&& C.baseInvalMask = s &&& C.baseInvalMask := by
  apply Nat.eq_of_testBit_eq
  intro i
  rw [Nat.testBit_and, Nat.testBit_and, testBit_andNot, testBit_baseInvalMask]
  cases s.testBit i <;> cases C.CZMIL_RETURN_FILTER_INVAL.testBit i <;>
    cases C.CZMIL_RETURN_INVAL.testBit i <;> rfl

/-- A status word with no bit of `CZMIL_RETURN_INVAL` has no base-invalid bit. -/
theorem land_baseInvalMask_eq_zero {C : CzmilConsts} {s : Nat}
    (h : s &&& C.CZMIL_RETURN_INVAL = 0) : s &&& C.baseInvalMask = 0 := by
  rw [land_eq_zero_iff] at h ⊢
  intro i
  have h1 := h i
  rw [testBit_baseInvalMask]
  revert h1
  cases s.testBit i <;> cases C.CZMIL_RETURN_FILTER_INVAL.testBit i <;>
    cases C.CZMIL_RETURN_INVAL.testBit i <;> simp

/-- A status word is valid exactly when the filter-invalid bits and the
base-invalid bits are all clear. -/
theorem land_inval_eq_zero_iff (C : CzmilConsts)
    (hF : C.CZMIL_RETURN_FILTER_INVAL &&& C.CZMIL_RETURN_INVAL = C.CZMIL_RETURN_FILTER_INVAL)
    (s : Nat) :
    s &&& C.CZMIL_RETURN_INVAL = 0 ↔
      s &&& C.CZMIL_RETURN_FILTER_INVAL = 0 ∧ s &&& C.baseInvalMask = 0 := by
  constructor
  · intro h
    exact ⟨land_part_eq_zero hF h, land_baseInvalMask_eq_zero h⟩
  · rintro ⟨h1, h2⟩
    rw [land_eq_zero_iff] at h1 h2 ⊢
    intro i
    have a := h1 i
    have b := h2 i
    rw [testBit_baseInvalMask] at b
    revert a b
    cases s.testBit i <;> cases C.CZMIL_RETURN_FILTER_INVAL.testBit i <;>
      cases C.CZMIL_RETURN_INVAL.testBit i <;> simp


/-! ## The loops in closed form -/

theorem staleLoop_fst (C : CzmilConsts) (t : Int) (rs : List CZMIL_Return_Data)
    (ci mf : Bool) : (staleLoop C t rs ci mf).1 = rs.map (resetReturn C t) := by
  induction rs generalizing ci mf with
  | nil => rfl
  | cons r rs ih => simp [staleLoop, ih]

theorem staleLoop_check (C : CzmilConsts) (t : Int) (rs : List CZMIL_Return_Data)
    (ci mf : Bool) :
    (staleLoop C t rs ci mf).2.1 = (ci || (rs.map (resetReturn C t)).any (isValid C)) := by
  induction rs generalizing ci mf with
  | nil => simp [staleLoop]
  | cons r rs ih =>
    simp only [staleLoop, ih, List.map_cons, List.any_cons]
    cases isValid C (resetReturn C t r) <;> cases ci <;> simp

theorem staleLoop_mod (C : CzmilConsts) (t : Int) (rs : List CZMIL_Return_Data)
    (ci mf : Bool) :
    (staleLoop C t rs ci mf).2.2 = (mf || rs.any (isStale C t)) := by
  induction rs generalizing ci mf with
  | nil => simp [staleLoop]
  | cons r rs ih =>
    simp only [staleLoop, ih, List.any_cons]
    cases isStale C t r <;> cases mf <;> simp

theorem afterReset_eq (C : CzmilConsts) (t : Int) (rs : List CZMIL_Return_Data) :
    afterReset C t rs = rs.map (resetReturn C t) :=
  staleLoop_fst C t rs false false

theorem condemnLoop_eq (C : CzmilConsts) (reason : Nat) (rs : List CZMIL_Return_Data)
    (k : Nat) (mf : Bool) :
    condemnLoop C reason rs k mf =
      ⟨rs.map (condemnReturn C reason), k + rs.countP (isValid C),
        mf || rs.any (isValid C)⟩ := by
  induction rs generalizing k mf with
  | nil => simp [condemnLoop]
  | cons r rs ih =>
    unfold condemnLoop
    by_cases h : isValid C r = true
    · simp [h, ih, condemnReturn, List.countP_cons]
      omega
    · simp [h, ih, condemnReturn, List.countP_cons]

/-- A return that a condemnation loop has marked is not valid. -/
theorem isValid_markReturn (C : CzmilConsts) (hC : C.WellFormed) (reason : Nat)
    (r : CZMIL_Return_Data) : isValid C (markReturn C reason r) = false := by
  have h := lor_land_ne_zero r.status hC.1 hC.2.1
  simp [isValid, markReturn, h]

theorem isValid_condemnReturn (C : CzmilConsts) (hC : C.WellFormed) (reason : Nat)
    (r : CZMIL_Return_Data) : isValid C (condemnReturn C reason r) = false := by
  unfold condemnReturn
  by_cases h : isValid C r = true
  · rw [if_pos h]; exact isValid_markReturn C hC reason r
  · rw [if_neg h]; simpa using h

theorem condemnReturn_of_not_valid (C : CzmilConsts) (reason : Nat) (r : CZMIL_Return_Data)
    (h : isValid C r = false) : condemnReturn C reason r = r := by
  simp [condemnReturn, h]

theorem condemnReturn_condemnReturn (C : CzmilConsts) (hC : C.WellFormed) (a b : Nat)
    (r : CZMIL_Return_Data) :
    condemnReturn C a (condemnReturn C b r) = condemnReturn C b r :=
  condemnReturn_of_not_valid C a _ (isValid_condemnReturn C hC b r)

theorem any_isValid_map_condemnReturn (C : CzmilConsts) (hC : C.WellFormed) (reason : Nat)
    (rs : List CZMIL_Return_Data) :
    (rs.map (condemnReturn C reason)).any (isValid C) = false := by
  induction rs with
  | nil => rfl
  | cons r rs ih =>
    simp only [List.map_cons, List.any_cons, ih, isValid_condemnReturn C hC reason r]
    rfl

theorem countP_isValid_map_condemnReturn (C : CzmilConsts) (hC : C.WellFormed) (reason : Nat)
    (rs : List CZMIL_Return_Data) :
    (rs.map (condemnReturn C reason)).countP (isValid C) = 0 := by
  induction rs with
  | nil => rfl
  | cons r rs ih =>
    simp [List.countP_cons, ih, isValid_condemnReturn C hC reason r]

theorem map_condemnReturn_map_condemnReturn (C : CzmilConsts) (hC : C.WellFormed) (a b : Nat)
    (rs : List CZMIL_Return_Data) :
    (rs.map (condemnReturn C b)).map (condemnReturn C a) = rs.map (condemnReturn C b) := by
  rw [List.map_map]
  apply List.map_congr_left
  intro r _
  exact condemnReturn_condemnReturn C hC a b r

/-- A condemnation loop over returns that an earlier condemnation loop has been
over changes nothing: no return, not the counter, not the flag. -/
theorem condemnLoop_condemnLoop (C : CzmilConsts) (hC : C.WellFormed) (a b : Nat)
    (rs : List CZMIL_Return_Data) (k : Nat) (mf : Bool) :
    condemnLoop C a (condemnLoop C b rs k mf).returns (condemnLoop C b rs k mf).kill_count
        (condemnLoop C b rs k mf).mod_flag = condemnLoop C b rs k mf := by
  rw [condemnLoop_eq C b rs k mf, condemnLoop_eq]
  simp only [map_condemnReturn_map_condemnReturn C hC, countP_isValid_map_condemnReturn C hC,
    any_isValid_map_condemnReturn C hC, Nat.add_zero, Bool.or_false]

/-- The loop over `k` in closed form: one condemnation loop when the test of
line 263 succeeds somewhere, nothing otherwise. -/
theorem noiseLoop_eq (C : CzmilConsts) (hC : C.WellFormed) (t : Int) (cwf : CZMIL_CWF_Data)
    (j n k : Nat) (st : ChanState) :
    noiseLoop C t cwf j n k st =
      if exceedsIn t cwf j n k then
        condemnLoop C C.CZMIL_DIGITIZER_NOISE st.returns st.kill_count st.mod_flag
      else st := by
  induction n generalizing k st with
  | zero => simp [noiseLoop, exceedsIn]
  | succ n ih =>
    simp only [noiseLoop, exceedsIn, ih]
    by_cases h : diff cwf j k - diff cwf j (k - 1) > t
    · have h1 : exceedsAt t cwf j k = true := by simp [exceedsAt, h]
      simp only [h, h1, if_true, Bool.true_or]
      rw [condemnLoop_condemnLoop C hC]
      simp
    · have h1 : exceedsAt t cwf j k = false := by simp [exceedsAt, h]
      simp only [h, h1, if_false, Bool.false_or]

theorem exceedsIn_iff (t : Int) (cwf : CZMIL_CWF_Data) (j n k : Nat) :
    exceedsIn t cwf j n k = true ↔
      ∃ i, k ≤ i ∧ i < k + n ∧ diff cwf j i - diff cwf j (i - 1) > t := by
  induction n generalizing k with
  | zero =>
    simp only [exceedsIn, Bool.false_eq_true, false_iff]
    rintro ⟨i, h1, h2, _⟩
    omega
  | succ n ih =>
    simp only [exceedsIn, Bool.or_eq_true, ih, exceedsAt, decide_eq_true_eq]
    constructor
    · rintro (h | ⟨i, h1, h2, h3⟩)
      · exact ⟨k, le_refl k, by omega, h⟩
      · exact ⟨i, by omega, by omega, h3⟩
    · rintro ⟨i, h1, h2, h3⟩
      by_cases hik : i = k
      · subst hik; exact Or.inl h3
      · exact Or.inr ⟨i, by omega, by omega, h3⟩


/-! ## One channel in closed form -/

theorem map_condemnReturn_of_none_valid (C : CzmilConsts) (reason : Nat)
    (rs : List CZMIL_Return_Data) (h : rs.any (isValid C) = false) :
    rs.map (condemnReturn C reason) = rs := by
  induction rs with
  | nil => rfl
  | cons r rs ih =>
    simp only [List.any_cons, Bool.or_eq_false_iff] at h
    simp [condemnReturn_of_not_valid C reason r h.1, ih h.2]

theorem countP_isValid_of_none_valid (C : CzmilConsts)
    (rs : List CZMIL_Return_Data) (h : rs.any (isValid C) = false) :
    rs.countP (isValid C) = 0 := by
  induction rs with
  | nil => rfl
  | cons r rs ih =>
    simp only [List.any_cons, Bool.or_eq_false_iff] at h
    simp [List.countP_cons, h.1, ih h.2]

/-- The returns of a channel at the end of `processChannel`. -/
theorem processChannel_eq (C : CzmilConsts) (hC : C.WellFormed) (cfg : Config)
    (cwf : CZMIL_CWF_Data) (j : Nat) (st : ChanState) :
    processChannel C cfg cwf j st =
      if chanAborts C cfg cwf j st.returns then none
      else some
        ⟨if noiseFired cfg cwf j then
            (afterReset C cfg.threshold st.returns).map (condemnReturn C C.CZMIL_DIGITIZER_NOISE)
          else if ampCheck cfg cwf j then
            (afterReset C cfg.threshold st.returns).map
              (condemnReturn C C.CZMIL_START_AMP_EXCEEDS_THRESHOLD)
          else afterReset C cfg.threshold st.returns,
         st.kill_count +
           (if noiseFired cfg cwf j || ampCheck cfg cwf j then
              validAfterReset C cfg st.returns else 0),
         st.mod_flag || st.returns.any (isStale C cfg.threshold) ||
           ((noiseFired cfg cwf j || ampCheck cfg cwf j) &&
             (afterReset C cfg.threshold st.returns).any (isValid C))⟩ := by
  unfold processChannel chanAborts validAfterReset
  simp only [staleLoop_fst, staleLoop_check, staleLoop_mod, afterReset_eq, Bool.false_or]
  by_cases hv : (st.returns.map (resetReturn C cfg.threshold)).any (isValid C) = true
  · rw [if_pos hv]
    unfold noiseCheck noiseFired
    by_cases ht : cfg.threshold > 0
    · by_cases hl : cwf.number_of_packets j * 64 = 0
      · simp [hv, ht, hl]
      · simp only [hv, ht, hl, if_true, if_false, decide_True, decide_False, Bool.true_and,
          Bool.and_false, Option.map_some', noiseLoop_eq C hC, Bool.false_eq_true, Bool.and_true]
        unfold ampCondemn
        by_cases hn : exceedsIn cfg.threshold cwf j (cwf.number_of_packets j * 64 - 2) 1 = true
        · by_cases ha : ampCheck cfg cwf j = true
          · simp only [hn, ha, if_true, condemnLoop_condemnLoop C hC]
            simp [condemnLoop_eq]
            exact Or.inr (by simpa using hv)
          · simp [hn, ha, condemnLoop_eq]
            exact Or.inr (by simpa using hv)
        · by_cases ha : ampCheck cfg cwf j = true
          · simp [hn, ha, condemnLoop_eq]
            exact Or.inr (by simpa using hv)
          · simp [hn, ha]
    · simp only [hv, ht, if_false, decide_False, Bool.false_and, Bool.and_false,
        Option.map_some', Bool.false_eq_true, Bool.true_and, Bool.false_or, Bool.and_true]
      unfold ampCondemn
      by_cases ha : ampCheck cfg cwf j = true
      · simp [ha, condemnLoop_eq]
        exact Or.inr (by simpa using hv)
      · simp [ha]
  · have hv0 : (st.returns.map (resetReturn C cfg.threshold)).any (isValid C) = false := by
      simpa using hv
    rw [if_neg hv]
    simp only [hv0, Bool.false_and, Bool.and_false, Bool.false_eq_true, if_false, Bool.or_false,
      map_condemnReturn_of_none_valid C _ _ hv0, countP_isValid_of_none_valid C _ hv0,
      ite_self, Nat.add_zero]


/-! ## Single returns -/

theorem toInt16_of_fits (x : Int) (h1 : -32768 ≤ x) (h2 : x ≤ 32767) : toInt16 x = x := by
  unfold toInt16
  omega

theorem isFilterInval_markReturn (C : CzmilConsts) (hC : C.WellFormed) (reason : Nat)
    (r : CZMIL_Return_Data) : isFilterInval C (markReturn C reason r) = true := by
  have h := lor_land_self_ne_zero r.status hC.1
  simp [isFilterInval, markReturn, h]

theorem isFilterInval_of_isValid (C : CzmilConsts) (hC : C.WellFormed) (r : CZMIL_Return_Data)
    (h : isValid C r = true) : isFilterInval C r = false := by
  have h1 : r.status &&& C.CZMIL_RETURN_INVAL = 0 := by simpa [isValid] using h
  simp [isFilterInval, land_part_eq_zero hC.2.1 h1]

theorem isBaseInval_of_isValid (C : CzmilConsts) (r : CZMIL_Return_Data)
    (h : isValid C r = true) : isBaseInval C r = false := by
  have h1 : r.status &&& C.CZMIL_RETURN_INVAL = 0 := by simpa [isValid] using h
  simp [isBaseInval, land_baseInvalMask_eq_zero h1]

theorem condemnedWith_condemnReturn (C : CzmilConsts) (hC : C.WellFormed) (reason : Nat)
    (r : CZMIL_Return_Data) (h : isValid C r = true) :
    condemnedWith C reason (condemnReturn C reason r) := by
  unfold condemnReturn
  rw [if_pos h]
  exact ⟨isFilterInval_markReturn C hC reason r, rfl⟩

/-- The detector of the code on a waveform whose first differences fit in 16
bits: the second difference of the samples exceeds the threshold somewhere. -/
theorem noiseFired_iff_of_fits (cfg : Config) (cwf : CZMIL_CWF_Data) (j : Nat)
    (hthr : 0 < cfg.threshold)
    (hfit : ∀ k, 1 ≤ k → k < 64 * cwf.number_of_packets j →
      -32768 ≤ cwf.channel j k - cwf.channel j (k - 1) ∧
        cwf.channel j k - cwf.channel j (k - 1) ≤ 32767) :
    noiseFired cfg cwf j = true ↔
      ∃ i, 1 ≤ i ∧ i ≤ 64 * cwf.number_of_packets j - 2 ∧
        (cwf.channel j (i + 1) - cwf.channel j i) -
          (cwf.channel j i - cwf.channel j (i - 1)) > cfg.threshold := by
  unfold noiseFired
  simp only [hthr, gt_iff_lt, decide_True, Bool.true_and, exceedsIn_iff]
  constructor
  · rintro ⟨i, h1, h2, h3⟩
    refine ⟨i, h1, by omega, ?_⟩
    have a := hfit (i + 1) (by omega) (by omega)
    have b := hfit i h1 (by omega)
    unfold diff at h3
    have e : i - 1 + 1 = i := by omega
    rw [e] at h3
    simp only [Nat.add_sub_cancel] at a
    rw [toInt16_of_fits _ a.1 a.2, toInt16_of_fits _ b.1 b.2] at h3
    exact h3
  · rintro ⟨i, h1, h2, h3⟩
    have hp : 2 ≤ 64 * cwf.number_of_packets j := by
      by_contra hc
      have : 64 * cwf.number_of_packets j - 2 = 0 := by omega
      omega
    refine ⟨i, h1, by omega, ?_⟩
    have a := hfit (i + 1) (by omega) (by omega)
    have b := hfit i h1 (by omega)
    unfold diff
    have e : i - 1 + 1 = i := by omega
    rw [e]
    simp only [Nat.add_sub_cancel] at a
    rw [toInt16_of_fits _ a.1 a.2, toInt16_of_fits _ b.1 b.2]
    exact h3

/-! ## C1: the noise detector -/

/-- C1: in a processed channel with a valid return after the stale reset, with
`threshold > 0` and a waveform of `N = 64 * number_of_packets ≥ 64` samples
whose first differences fit in a signed 16-bit integer, the run of the channel
completes, and every return that is valid after the reset ends filter-invalid
with reason digitizer-noise if and only if
`(s[i+1] - s[i]) - (s[i] - s[i-1]) > threshold` for some `1 ≤ i ≤ N - 2`. -/
theorem C1_noise_detector_reference (C : CzmilConsts) (hC : C.WellFormed) (cfg : Config)
    (cwf : CZMIL_CWF_Data) (j : Nat) (st : ChanState)
    (hthr : 0 < cfg.threshold)
    (hN : 1 ≤ cwf.number_of_packets j)
    (hfit : ∀ k, 1 ≤ k → k < 64 * cwf.number_of_packets j →
      -32768 ≤ cwf.channel j k - cwf.channel j (k - 1) ∧
        cwf.channel j k - cwf.channel j (k - 1) ≤ 32767)
    (hvalid : ∃ r ∈ afterReset C cfg.threshold st.returns, isValid C r = true) :
    ∃ st', processChannel C cfg cwf j st = some st' ∧
      ((∀ (m : Nat) (r : CZMIL_Return_Data),
          (afterReset C cfg.threshold st.returns)[m]? = some r → isValid C r = true →
          ∃ r', st'.returns[m]? = some r' ∧ condemnedWith C C.CZMIL_DIGITIZER_NOISE r') ↔
        ∃ i, 1 ≤ i ∧ i ≤ 64 * cwf.number_of_packets j - 2 ∧
          (cwf.channel j (i + 1) - cwf.channel j i) -
            (cwf.channel j i - cwf.channel j (i - 1)) > cfg.threshold) := by
  have hab : chanAborts C cfg cwf j st.returns = false := by
    have : ¬ cwf.number_of_packets j * 64 = 0 := by omega
    simp [chanAborts, this]
  rw [processChannel_eq C hC, hab]
  refine ⟨_, rfl, ?_⟩
  rw [← noiseFired_iff_of_fits cfg cwf j hthr hfit]
  constructor
  · intro h
    by_contra hn
    have hn0 : noiseFired cfg cwf j = false := by simpa using hn
    obtain ⟨r, hr, hv⟩ := hvalid
    obtain ⟨m, hm⟩ := List.getElem?_of_mem hr
    obtain ⟨r', hr', hc⟩ := h m r hm hv
    simp only [hn0, Bool.false_eq_true, if_false] at hr'
    by_cases ha : ampCheck cfg cwf j = true
    · simp only [ha, if_true, List.getElem?_map, hm, Option.map_some', Option.some.injEq] at hr'
      subst hr'
      have := hc.2
      simp only [condemnReturn, hv, if_true, markReturn] at this
      exact hC.2.2.1 this.symm
    · simp only [ha, if_false, hm, Option.some.injEq, Bool.false_eq_true] at hr'
      subst hr'
      have := hc.1
      rw [isFilterInval_of_isValid C hC r hv] at this
      exact Bool.false_ne_true this
  · intro hn m r hm hv
    simp only [hn, if_true, List.getElem?_map, hm, Option.map_some']
    exact ⟨_, rfl, condemnedWith_condemnReturn C hC _ r hv⟩


theorem spikeCwf_fits (k : Nat) :
    -32768 ≤ spikeCwf.channel 0 k - spikeCwf.channel 0 (k - 1) ∧
      spikeCwf.channel 0 k - spikeCwf.channel 0 (k - 1) ≤ 32767 := by
  simp only [spikeCwf]
  split_ifs <;> omega

/-- C1 at the spike waveform, threshold 50, on `fourReturns`. -/
theorem C1_noise_detector_reference_witness :
    ∃ st', processChannel czmil cfg50 spikeCwf 0 ⟨fourReturns, 0, false⟩ = some st' ∧
      ((∀ (m : Nat) (r : CZMIL_Return_Data),
          (afterReset czmil cfg50.threshold fourReturns)[m]? = some r →
          isValid czmil r = true →
          ∃ r', st'.returns[m]? = some r' ∧
            condemnedWith czmil czmil.CZMIL_DIGITIZER_NOISE r') ↔
        ∃ i, 1 ≤ i ∧ i ≤ 64 * spikeCwf.number_of_packets 0 - 2 ∧
          (spikeCwf.channel 0 (i + 1) - spikeCwf.channel 0 i) -
            (spikeCwf.channel 0 i - spikeCwf.channel 0 (i - 1)) > cfg50.threshold) :=
  C1_noise_detector_reference czmil (by decide) cfg50 spikeCwf 0 ⟨fourReturns, 0, false⟩
    (by decide) (by decide) (fun k _ _ => spikeCwf_fits k)
    ⟨⟨0, 0, 7⟩, by decide, by decide⟩

/-! ## The spike on a channel the loop reaches -/

theorem diff_spike_bounds (cwf : CZMIL_CWF_Data) (j : Nat)
    (hw : ∀ k, k < 64 → cwf.channel j k = if k = 3 then 100 else 0)
    (k : Nat) (hk : k + 1 < 64) : -100 ≤ diff cwf j k ∧ diff cwf j k ≤ 100 := by
  unfold diff toInt16
  rw [hw (k + 1) hk, hw k (by omega)]
  split_ifs <;> omega

theorem ampCheck_of_disabled (cfg : Config) (cwf : CZMIL_CWF_Data) (j : Nat)
    (hs : cfg.shal_amp ≤ 0) (hd : cfg.deep_amp ≤ 0) : ampCheck cfg cwf j = false := by
  have h1 : ¬ cfg.shal_amp > 0 := by omega
  have h2 : ¬ cfg.deep_amp > 0 := by omega
  unfold ampCheck
  split_ifs <;> simp [h1, h2]

/-- The spike in the body of the channel loop (so on a channel the loop of line
208 reaches): the waveform is `[0, 0, 0, 100, 0, 0, 0]` padded
with zeros to one packet of 64 samples, both amplitude ceilings disabled.
With `threshold = 50` every return that is valid (after the stale reset) ends
filter-invalid with reason digitizer-noise and `kill_count` grows by exactly
the number of those returns. With `threshold = 250` no return is condemned
(the returns are those the stale reset left) and `kill_count` is unchanged. -/
theorem spike_detection_processed (C : CzmilConsts) (hC : C.WellFormed) (cfg : Config)
    (cwf : CZMIL_CWF_Data) (j : Nat) (st : ChanState)
    (hs : cfg.shal_amp ≤ 0) (hd : cfg.deep_amp ≤ 0)
    (hp : cwf.number_of_packets j = 1)
    (hw : ∀ k, k < 64 → cwf.channel j k = if k = 3 then 100 else 0) :
    (cfg.threshold = 50 →
      ∃ st', processChannel C cfg cwf j st = some st' ∧
        (∀ (m : Nat) (r : CZMIL_Return_Data),
          (afterReset C cfg.threshold st.returns)[m]? = some r → isValid C r = true →
          ∃ r', st'.returns[m]? = some r' ∧ condemnedWith C C.CZMIL_DIGITIZER_NOISE r') ∧
        st'.kill_count = st.kill_count + validAfterReset C cfg st.returns) ∧
    (cfg.threshold = 250 →
      ∃ st', processChannel C cfg cwf j st = some st' ∧
        st'.returns = afterReset C cfg.threshold st.returns ∧
        st'.kill_count = st.kill_count) := by
  have hab : chanAborts C cfg cwf j st.returns = false := by
    simp [chanAborts, hp]
  have ha := ampCheck_of_disabled cfg cwf j hs hd
  rw [processChannel_eq C hC, hab]
  constructor
  · intro ht
    have hn : noiseFired cfg cwf j = true := by
      unfold noiseFired
      rw [hp, ht]
      simp only [gt_iff_lt, Bool.and_eq_true, decide_eq_true_eq, exceedsIn_iff]
      refine ⟨by omega, 2, by omega, by omega, ?_⟩
      unfold diff toInt16
      rw [hw 3 (by omega), hw 2 (by omega), hw 1 (by omega)]
      simp
    refine ⟨_, rfl, ?_, ?_⟩
    · intro m r hm hv
      simp only [hn, if_true, List.getElem?_map, hm, Option.map_some']
      exact ⟨_, rfl, condemnedWith_condemnReturn C hC _ r hv⟩
    · simp [hn]
  · intro ht
    have hn : noiseFired cfg cwf j = false := by
      rw [Bool.eq_false_iff]
      intro h
      unfold noiseFired at h
      rw [hp, ht] at h
      simp only [gt_iff_lt, Bool.and_eq_true, decide_eq_true_eq, exceedsIn_iff] at h
      obtain ⟨_, i, h1, h2, h3⟩ := h
      have a := diff_spike_bounds cwf j hw i (by omega)
      have b := diff_spike_bounds cwf j hw (i - 1) (by omega)
      omega
    refine ⟨_, rfl, ?_, ?_⟩
    · simp [hn, ha]
    · simp [hn, ha]

/-- The spike on channel 0, on `fourReturns`: with `threshold = 50` the two
returns that are valid after the reset are condemned and counted, with
`threshold = 250` the returns are those the reset left and nothing is
counted. -/
theorem spike_detection_processed_example :
    ((∃ st', processChannel czmil cfg50 spikeCwf 0 ⟨fourReturns, 0, false⟩ = some st' ∧
        (∀ (m : Nat) (r : CZMIL_Return_Data),
          (afterReset czmil cfg50.threshold fourReturns)[m]? = some r →
          isValid czmil r = true →
          ∃ r', st'.returns[m]? = some r' ∧
            condemnedWith czmil czmil.CZMIL_DIGITIZER_NOISE r') ∧
        st'.kill_count = 0 + validAfterReset czmil cfg50 fourReturns) ∧
      validAfterReset czmil cfg50 fourReturns = 2) ∧
    ∃ st', processChannel czmil cfg250 spikeCwf 0 ⟨fourReturns, 0, false⟩ = some st' ∧
      st'.returns = afterReset czmil cfg250.threshold fourReturns ∧
      st'.kill_count = 0 :=
  ⟨⟨(spike_detection_processed czmil (by decide) cfg50 spikeCwf 0 ⟨fourReturns, 0, false⟩
      (by decide) (by decide) rfl
      (fun k _ => by simp [spikeCwf])).1 (by decide),
    by decide⟩,
   (spike_detection_processed czmil (by decide) cfg250 spikeCwf 0 ⟨fourReturns, 0, false⟩
      (by decide) (by decide) rfl
      (fun k _ => by simp [spikeCwf])).2 (by decide)⟩

/-! ## C3: the counter -/

/-- C3: for every configuration, waveform record and channel, the pass over a
processed channel either exits at the allocation of line 250 (a return is valid
after the stale reset, `threshold > 0` and the waveform has no packet), or it
completes and has added to `kill_count` the number of returns that are valid
after the stale reset if the noise detector fired or the amplitude gate fired,
and 0 otherwise: each return is counted once, however many second differences
exceed the threshold and also when both tests fire. -/
theorem C3_counter_exact (C : CzmilConsts) (hC : C.WellFormed) (cfg : Config)
    (cwf : CZMIL_CWF_Data) (j : Nat) (st : ChanState) :
    (chanAborts C cfg cwf j st.returns = true ∧ processChannel C cfg cwf j st = none) ∨
    ∃ st', processChannel C cfg cwf j st = some st' ∧
      st'.kill_count = st.kill_count +
        (if noiseFired cfg cwf j = true ∨ ampCheck cfg cwf j = true then
          (afterReset C cfg.threshold st.returns).countP (isValid C) else 0) := by
  rw [processChannel_eq C hC]
  by_cases hab : chanAborts C cfg cwf j st.returns = true
  · exact Or.inl ⟨hab, by simp [hab]⟩
  · refine Or.inr ⟨_, by rw [if_neg hab], ?_⟩
    simp [validAfterReset]

/-- C3 where the detector fires at several indices and the gate fires too: the
two returns that are valid after the reset are counted once each. -/
theorem C3_counter_exact_witness :
    (noiseFired cfgBoth loudCwf 0 = true ∧ ampCheck cfgBoth loudCwf 0 = true ∧
      exceedsAt 50 loudCwf 0 1 = true ∧ exceedsAt 50 loudCwf 0 2 = true ∧
      (afterReset czmil cfgBoth.threshold fourReturns).countP (isValid czmil) = 2) ∧
    ∃ st', processChannel czmil cfgBoth loudCwf 0 ⟨fourReturns, 5, false⟩ = some st' ∧
      st'.kill_count = 5 + 2 :=
  ⟨by decide,
    (C3_counter_exact czmil (by decide) cfgBoth loudCwf 0 ⟨fourReturns, 5, false⟩).resolve_left
      (by decide)⟩

/-! ## One record in closed form -/

theorem processChannel_eq_chanFinal (C : CzmilConsts) (hC : C.WellFormed) (cfg : Config)
    (cwf : CZMIL_CWF_Data) (j : Nat) (st : ChanState) :
    processChannel C cfg cwf j st =
      if chanAborts C cfg cwf j st.returns then none
      else some ⟨chanFinal C cfg cwf j st.returns,
        st.kill_count + chanKills C cfg cwf j st.returns,
        st.mod_flag || chanMod C cfg cwf j st.returns⟩ := by
  rw [processChannel_eq C hC]
  simp only [chanFinal, chanKills, chanMod, Bool.or_assoc]

theorem recAborts_congr (C : CzmilConsts) (cfg : Config) (cwf : CZMIL_CWF_Data)
    (a b : CZMIL_CPF_Data) (n j0 : Nat) (h : ∀ j, j0 ≤ j → a.channel j = b.channel j) :
    recAborts C cfg cwf a n j0 = recAborts C cfg cwf b n j0 := by
  induction n generalizing j0 with
  | zero => rfl
  | succ n ih =>
    simp only [recAborts, h j0 (le_refl j0), ih (j0 + 1) (fun j hj => h j (by omega))]

theorem recKills_congr (C : CzmilConsts) (cfg : Config) (cwf : CZMIL_CWF_Data)
    (a b : CZMIL_CPF_Data) (n j0 : Nat) (h : ∀ j, j0 ≤ j → a.channel j = b.channel j) :
    recKills C cfg cwf a n j0 = recKills C cfg cwf b n j0 := by
  induction n generalizing j0 with
  | zero => rfl
  | succ n ih =>
    simp only [recKills, h j0 (le_refl j0), ih (j0 + 1) (fun j hj => h j (by omega))]

theorem recMod_congr (C : CzmilConsts) (cfg : Config) (cwf : CZMIL_CWF_Data)
    (a b : CZMIL_CPF_Data) (n j0 : Nat) (h : ∀ j, j0 ≤ j → a.channel j = b.channel j) :
    recMod C cfg cwf a n j0 = recMod C cfg cwf b n j0 := by
  induction n generalizing j0 with
  | zero => rfl
  | succ n ih =>
    simp only [recMod, h j0 (le_refl j0), ih (j0 + 1) (fun j hj => h j (by omega))]

/-- The loop over the channels in closed form. -/
theorem channelLoop_eq (C : CzmilConsts) (hC : C.WellFormed) (cfg : Config)
    (cwf : CZMIL_CWF_Data) (n j0 : Nat) (st : RecState) :
    channelLoop C cfg cwf n j0 st =
      if recAborts C cfg cwf st.cpf n j0 then none
      else some ⟨recFinal C cfg cwf st.cpf n j0,
        st.kill_count + recKills C cfg cwf st.cpf n j0,
        st.mod_flag || recMod C cfg cwf st.cpf n j0⟩ := by
  induction n generalizing j0 st with
  | zero =>
    simp only [channelLoop, recAborts, recKills, recMod, recFinal, Bool.false_eq_true,
      if_false, Nat.add_zero, Bool.or_false]
    congr 1
    cases st with
    | mk cpf k m =>
      simp only [RecState.mk.injEq, and_true]
      cases cpf with
      | mk ch =>
        simp only [CZMIL_CPF_Data.mk.injEq]
        funext j
        have : ¬ (j0 ≤ j ∧ j < j0 ∧ cfg.channel j = true) := by omega
        rw [if_neg this]
  | succ n ih =>
    simp only [channelLoop, channelStep, recAborts, recKills, recMod]
    by_cases he : cfg.channel j0 = true
    · simp only [he, if_true, Bool.true_and, processChannel_eq_chanFinal C hC]
      by_cases hab : chanAborts C cfg cwf j0 (st.cpf.channel j0) = true
      · simp [hab]
      · simp only [hab, if_false, Option.map_some', Option.some_bind, ih, Bool.false_or,
          Bool.false_eq_true]
        have hc : ∀ j, j0 + 1 ≤ j →
            (CZMIL_CPF_Data.mk fun i =>
              if i = j0 then chanFinal C cfg cwf j0 (st.cpf.channel j0)
              else st.cpf.channel i).channel j = st.cpf.channel j := by
          intro j hj
          have : j ≠ j0 := by omega
          simp [this]
        rw [recAborts_congr C cfg cwf _ st.cpf n (j0 + 1) hc,
          recKills_congr C cfg cwf _ st.cpf n (j0 + 1) hc,
          recMod_congr C cfg cwf _ st.cpf n (j0 + 1) hc]
        by_cases hr : recAborts C cfg cwf st.cpf n (j0 + 1) = true
        · simp [hr]
        · simp only [hr, if_false, Option.some.injEq, RecState.mk.injEq, Bool.false_eq_true]
          refine ⟨?_, by omega, by simp [Bool.or_assoc]⟩
          simp only [recFinal, CZMIL_CPF_Data.mk.injEq]
          funext j
          by_cases hj : j = j0
          · subst hj
            have h1 : ¬ (j + 1 ≤ j ∧ j < j + 1 + n ∧ cfg.channel j = true) := by omega
            have h2 : j ≤ j ∧ j < j + (n + 1) ∧ cfg.channel j = true :=
              ⟨le_refl j, by omega, he⟩
            simp only [if_neg h1, if_pos h2, if_true]
          · by_cases hp : j0 + 1 ≤ j ∧ j < j0 + 1 + n ∧ cfg.channel j = true
            · have h2 : j0 ≤ j ∧ j < j0 + (n + 1) ∧ cfg.channel j = true :=
                ⟨by omega, by omega, hp.2.2⟩
              simp only [if_pos hp, if_pos h2, if_neg hj]
            · have h2 : ¬ (j0 ≤ j ∧ j < j0 + (n + 1) ∧ cfg.channel j = true) := by
                intro h
                exact hp ⟨by omega, by omega, h.2.2⟩
              simp only [if_neg hp, if_neg h2, if_neg hj]
    · have he0 : cfg.channel j0 = false := by simpa using he
      simp only [he0, Bool.false_eq_true, if_false, Bool.false_and, Bool.false_or,
        Option.some_bind, ih, Nat.zero_add]
      by_cases hr : recAborts C cfg cwf st.cpf n (j0 + 1) = true
      · simp [hr]
      · simp only [hr, if_false, Option.some.injEq, RecState.mk.injEq, true_and, and_true,
          Bool.false_eq_true]
        simp only [recFinal, CZMIL_CPF_Data.mk.injEq]
        funext j
        by_cases hp : j0 + 1 ≤ j ∧ j < j0 + 1 + n ∧ cfg.channel j = true
        · have h2 : j0 ≤ j ∧ j < j0 + (n + 1) ∧ cfg.channel j = true :=
            ⟨by omega, by omega, hp.2.2⟩
          simp only [if_pos hp, if_pos h2]
        · have h2 : ¬ (j0 ≤ j ∧ j < j0 + (n + 1) ∧ cfg.channel j = true) := by
            intro h
            by_cases hj : j = j0
            · subst hj; rw [he0] at h; exact Bool.false_ne_true h.2.2
            · exact hp ⟨by omega, by omega, h.2.2⟩
          simp only [if_neg hp, if_neg h2]

/-! ## C9: the shallow amplitude gate -/

theorem ampCheck_of_ne_deep (cfg : Config) (cwf : CZMIL_CWF_Data) (j : Nat) (hj : j ≠ 8) :
    ampCheck cfg cwf j = true ↔ 0 < cfg.shal_amp ∧ cfg.shal_amp < cwf.channel j 0 := by
  unfold ampCheck
  rw [if_neg hj]
  simp

/-- C9: in a processed channel other than the deep one (index 8) that has a
valid return after the stale reset and on which the noise detector did not
fire, the pass either exits at the allocation of line 250 or completes, and
then every return that is valid after the reset ends filter-invalid with reason
start-amplitude-exceeded if and only if `shal_amp > 0` and the first sample of
the channel is strictly greater than `shal_amp`. Whatever the deep ceiling is
replaced with, the outcome of the pass is the same. -/
theorem C9_shallow_gate (C : CzmilConsts) (hC : C.WellFormed) (cfg : Config)
    (cwf : CZMIL_CWF_Data) (j : Nat) (st : ChanState)
    (hj : j ≠ 8)
    (hvalid : ∃ r ∈ afterReset C cfg.threshold st.returns, isValid C r = true)
    (hquiet : noiseFired cfg cwf j = false) :
    ((chanAborts C cfg cwf j st.returns = true ∧ processChannel C cfg cwf j st = none) ∨
      ∃ st', processChannel C cfg cwf j st = some st' ∧
        ((∀ (m : Nat) (r : CZMIL_Return_Data),
            (afterReset C cfg.threshold st.returns)[m]? = some r → isValid C r = true →
            ∃ r', st'.returns[m]? = some r' ∧
              condemnedWith C C.CZMIL_START_AMP_EXCEEDS_THRESHOLD r') ↔
          (0 < cfg.shal_amp ∧ cfg.shal_amp < cwf.channel j 0))) ∧
    ∀ d : Int, processChannel C { cfg with deep_amp := d } cwf j st =
      processChannel C cfg cwf j st := by
  constructor
  · rw [processChannel_eq C hC]
    by_cases hab : chanAborts C cfg cwf j st.returns = true
    · exact Or.inl ⟨hab, by simp [hab]⟩
    · refine Or.inr ⟨_, by rw [if_neg hab], ?_⟩
      rw [← ampCheck_of_ne_deep cfg cwf j hj]
      simp only [hquiet, Bool.false_eq_true, if_false]
      constructor
      · intro h
        by_contra ha
        obtain ⟨r, hr, hv⟩ := hvalid
        obtain ⟨m, hm⟩ := List.getElem?_of_mem hr
        obtain ⟨r', hr', hc⟩ := h m r hm hv
        simp only [ha, if_false, hm, Option.some.injEq, Bool.false_eq_true] at hr'
        subst hr'
        have := hc.1
        rw [isFilterInval_of_isValid C hC r hv] at this
        exact Bool.false_ne_true this
      · intro ha m r hm hv
        simp only [ha, if_true, List.getElem?_map, hm, Option.map_some']
        exact ⟨_, rfl, condemnedWith_condemnReturn C hC _ r hv⟩
  · intro d
    have h : ampCondemn C { cfg with deep_amp := d } cwf j = ampCondemn C cfg cwf j := by
      funext s
      simp only [ampCondemn, ampCheck, if_neg hj]
    simp only [processChannel, h]

/-- C9 on channel 0 with the shallow ceiling 100 and the first sample 500 (the
returns are condemned), with the noise filter disabled. -/
theorem C9_shallow_gate_witness :
    ((chanAborts czmil cfgShal loudCwf 0 fourReturns = true ∧
        processChannel czmil cfgShal loudCwf 0 ⟨fourReturns, 0, false⟩ = none) ∨
      ∃ st', processChannel czmil cfgShal loudCwf 0 ⟨fourReturns, 0, false⟩ = some st' ∧
        ((∀ (m : Nat) (r : CZMIL_Return_Data),
            (afterReset czmil cfgShal.threshold fourReturns)[m]? = some r →
            isValid czmil r = true →
            ∃ r', st'.returns[m]? = some r' ∧
              condemnedWith czmil czmil.CZMIL_START_AMP_EXCEEDS_THRESHOLD r') ↔
          (0 < cfgShal.shal_amp ∧ cfgShal.shal_amp < loudCwf.channel 0 0))) ∧
    ∀ d : Int, processChannel czmil { cfgShal with deep_amp := d } loudCwf 0
        ⟨fourReturns, 0, false⟩ =
      processChannel czmil cfgShal loudCwf 0 ⟨fourReturns, 0, false⟩ :=
  C9_shallow_gate czmil (by decide) cfgShal loudCwf 0 ⟨fourReturns, 0, false⟩ (by decide)
    ⟨⟨0, 0, 7⟩, by decide, by decide⟩ (by decide)

/-! ## The final value of one return -/

theorem chanFinal_eq_map (C : CzmilConsts) (cfg : Config) (cwf : CZMIL_CWF_Data) (j : Nat)
    (rets : List CZMIL_Return_Data) :
    chanFinal C cfg cwf j rets = rets.map (finalReturn C cfg cwf j) := by
  unfold chanFinal
  rw [afterReset_eq]
  by_cases hn : noiseFired cfg cwf j = true
  · simp only [hn, if_true, List.map_map]
    apply List.map_congr_left
    intro r _
    simp [finalReturn, hn]
  · by_cases ha : ampCheck cfg cwf j = true
    · simp only [hn, ha, if_true, if_false, List.map_map]
      apply List.map_congr_left
      intro r _
      simp [finalReturn, hn, ha]
    · simp only [hn, ha, if_false]
      apply List.map_congr_left
      intro r _
      simp [finalReturn, hn, ha]

theorem processRecord_eq (C : CzmilConsts) (hC : C.WellFormed) (cfg : Config)
    (cwf : CZMIL_CWF_Data) (cpf : CZMIL_CPF_Data) (k : Nat) :
    processRecord C cfg cwf cpf k =
      if recAborts C cfg cwf cpf 8 0 then none
      else some ⟨recFinal C cfg cwf cpf 8 0, k + recKills C cfg cwf cpf 8 0,
        recMod C cfg cwf cpf 8 0⟩ := by
  unfold processRecord
  rw [channelLoop_eq C hC]
  simp

theorem recFinal_channel (C : CzmilConsts) (cfg : Config) (cwf : CZMIL_CWF_Data)
    (cpf : CZMIL_CPF_Data) (j : Nat) :
    (recFinal C cfg cwf cpf 8 0).channel j =
      if processed cfg j then (cpf.channel j).map (finalReturn C cfg cwf j)
      else cpf.channel j := by
  simp only [recFinal, processed, chanFinal_eq_map, Nat.zero_le, true_and, Nat.zero_add,
    Bool.and_eq_true, decide_eq_true_eq]

/-- The returns of every channel at the end of the processing of a record. -/
theorem processRecord_channel (C : CzmilConsts) (hC : C.WellFormed) (cfg : Config)
    (cwf : CZMIL_CWF_Data) (cpf : CZMIL_CPF_Data) (k : Nat) (st : RecState)
    (h : processRecord C cfg cwf cpf k = some st) (j : Nat) :
    st.cpf.channel j =
      if processed cfg j then (cpf.channel j).map (finalReturn C cfg cwf j)
      else cpf.channel j := by
  rw [processRecord_eq C hC] at h
  by_cases hab : recAborts C cfg cwf cpf 8 0 = true
  · simp [hab] at h
  · simp only [hab, if_false, Option.some.injEq, Bool.false_eq_true] at h
    rw [← h]
    exact recFinal_channel C cfg cwf cpf j

theorem resetReturn_of_not_stale (C : CzmilConsts) (t : Int) (r : CZMIL_Return_Data)
    (h : isStale C t r = false) : resetReturn C t r = r := by
  simp [resetReturn, h]

theorem isStale_resetReturn (C : CzmilConsts) (t : Int) (r : CZMIL_Return_Data) :
    isStale C t (resetReturn C t r) = false := by
  by_cases h : isStale C t r = true
  · have e : resetReturn C t r =
        { r with status := andNot r.status C.CZMIL_RETURN_FILTER_INVAL,
                 filter_reason := C.CZMIL_WAVEFORM_VALID } := by
      simp [resetReturn, h]
    rw [e]
    simp [isStale, isFilterInval, andNot_land_self]
  · have h0 : isStale C t r = false := by simpa using h
    rw [resetReturn_of_not_stale C t r h0, h0]

theorem resetReturn_resetReturn (C : CzmilConsts) (t : Int) (r : CZMIL_Return_Data) :
    resetReturn C t (resetReturn C t r) = resetReturn C t r :=
  resetReturn_of_not_stale C t _ (isStale_resetReturn C t r)

theorem isStale_of_not_pos (C : CzmilConsts) (t : Int) (r : CZMIL_Return_Data) (ht : t ≤ 0) :
    isStale C t r = false := by
  have : ¬ t > 0 := by omega
  simp [isStale, this]

theorem isStale_markReturn_amp (C : CzmilConsts) (hC : C.WellFormed) (t : Int)
    (r : CZMIL_Return_Data) :
    isStale C t (markReturn C C.CZMIL_START_AMP_EXCEEDS_THRESHOLD r) = false := by
  have h : ¬ C.CZMIL_START_AMP_EXCEEDS_THRESHOLD = C.CZMIL_DIGITIZER_NOISE :=
    fun e => hC.2.2.1 e.symm
  simp [isStale, markReturn, h]

theorem resetReturn_markReturn_noise (C : CzmilConsts) (hC : C.WellFormed) (t : Int)
    (ht : 0 < t) (r : CZMIL_Return_Data) (hv : isValid C r = true) :
    resetReturn C t (markReturn C C.CZMIL_DIGITIZER_NOISE r) =
      { r with filter_reason := C.CZMIL_WAVEFORM_VALID } := by
  have h1 : r.status &&& C.CZMIL_RETURN_INVAL = 0 := by simpa [isValid] using hv
  have h2 := land_part_eq_zero hC.2.1 h1
  have h3 := lor_land_self_ne_zero r.status hC.1
  simp [resetReturn, isStale, isFilterInval, markReturn, ht, h3,
    andNot_lor_of_land_eq_zero h2]

theorem noiseFired_pos (cfg : Config) (cwf : CZMIL_CWF_Data) (j : Nat)
    (h : noiseFired cfg cwf j = true) : 0 < cfg.threshold := by
  simp only [noiseFired, Bool.and_eq_true, decide_eq_true_eq] at h
  exact h.1

/-- A second pass with the same configuration and waveform leaves a return as
the first pass left it. -/
theorem finalReturn_finalReturn (C : CzmilConsts) (hC : C.WellFormed) (cfg : Config)
    (cwf : CZMIL_CWF_Data) (j : Nat) (r : CZMIL_Return_Data) :
    finalReturn C cfg cwf j (finalReturn C cfg cwf j r) = finalReturn C cfg cwf j r := by
  unfold finalReturn
  by_cases hn : noiseFired cfg cwf j = true
  · have ht := noiseFired_pos cfg cwf j hn
    simp only [hn, if_true]
    by_cases hv : isValid C (resetReturn C cfg.threshold r) = true
    · simp only [condemnReturn, hv, if_true]
      rw [resetReturn_markReturn_noise C hC cfg.threshold ht _ hv]
      have hv2 : isValid C { resetReturn C cfg.threshold r with
          filter_reason := C.CZMIL_WAVEFORM_VALID } = true := by
        simpa [isValid] using hv
      rw [if_pos hv2]
      simp [markReturn]
    · have hv0 : isValid C (resetReturn C cfg.threshold r) = false := by simpa using hv
      rw [condemnReturn_of_not_valid C _ _ hv0, resetReturn_resetReturn,
        condemnReturn_of_not_valid C _ _ hv0]
  · have hn0 : noiseFired cfg cwf j = false := by simpa using hn
    by_cases ha : ampCheck cfg cwf j = true
    · simp only [hn0, ha, if_true, if_false, Bool.false_eq_true]
      by_cases hv : isValid C (resetReturn C cfg.threshold r) = true
      · simp only [condemnReturn, hv, if_true]
        rw [resetReturn_of_not_stale C _ _ (isStale_markReturn_amp C hC _ _)]
        simp [isValid_markReturn C hC]
      · have hv0 : isValid C (resetReturn C cfg.threshold r) = false := by simpa using hv
        rw [condemnReturn_of_not_valid C _ _ hv0, resetReturn_resetReturn,
          condemnReturn_of_not_valid C _ _ hv0]
    · have ha0 : ampCheck cfg cwf j = false := by simpa using ha
      simp only [hn0, ha0, if_false, resetReturn_resetReturn, Bool.false_eq_true]

theorem finalReturn_of_not_valid (C : CzmilConsts) (cfg : Config) (cwf : CZMIL_CWF_Data)
    (j : Nat) (r : CZMIL_Return_Data)
    (h : isValid C (resetReturn C cfg.threshold r) = false) :
    finalReturn C cfg cwf j r = resetReturn C cfg.threshold r := by
  unfold finalReturn
  simp only [condemnReturn_of_not_valid C _ _ h, ite_self]

/-- A return that is valid after the stale reset of a second pass was valid
after the stale reset of the first. -/
theorem isValid_resetReturn_finalReturn (C : CzmilConsts) (cfg : Config)
    (cwf : CZMIL_CWF_Data) (j : Nat) (r : CZMIL_Return_Data)
    (h : isValid C (resetReturn C cfg.threshold (finalReturn C cfg cwf j r)) = true) :
    isValid C (resetReturn C cfg.threshold r) = true := by
  by_contra hv
  have hv0 : isValid C (resetReturn C cfg.threshold r) = false := by simpa using hv
  rw [finalReturn_of_not_valid C cfg cwf j r hv0, resetReturn_resetReturn, hv0] at h
  exact Bool.false_ne_true h

theorem recAborts_iff (C : CzmilConsts) (cfg : Config) (cwf : CZMIL_CWF_Data)
    (cpf : CZMIL_CPF_Data) (n j0 : Nat) :
    recAborts C cfg cwf cpf n j0 = true ↔
      ∃ j, j0 ≤ j ∧ j < j0 + n ∧ cfg.channel j = true ∧
        chanAborts C cfg cwf j (cpf.channel j) = true := by
  induction n generalizing j0 with
  | zero =>
    simp only [recAborts, Bool.false_eq_true, false_iff]
    rintro ⟨j, h1, h2, _⟩
    omega
  | succ n ih =>
    simp only [recAborts, Bool.or_eq_true, Bool.and_eq_true, ih]
    constructor
    · rintro (⟨h1, h2⟩ | ⟨j, h1, h2, h3, h4⟩)
      · exact ⟨j0, le_refl j0, by omega, h1, h2⟩
      · exact ⟨j, by omega, by omega, h3, h4⟩
    · rintro ⟨j, h1, h2, h3, h4⟩
      by_cases hj : j = j0
      · subst hj; exact Or.inl ⟨h3, h4⟩
      · exact Or.inr ⟨j, by omega, by omega, h3, h4⟩

/-- A second pass over a channel does not exit when the first did not. -/
theorem chanAborts_chanFinal (C : CzmilConsts) (cfg : Config) (cwf : CZMIL_CWF_Data)
    (j : Nat) (rets : List CZMIL_Return_Data)
    (h : chanAborts C cfg cwf j (chanFinal C cfg cwf j rets) = true) :
    chanAborts C cfg cwf j rets = true := by
  simp only [chanAborts, chanFinal_eq_map, afterReset_eq, List.map_map, Bool.and_eq_true,
    List.any_eq_true, List.mem_map, decide_eq_true_eq] at h ⊢
  obtain ⟨⟨⟨x, ⟨r, hr, hx⟩, hv⟩, ht⟩, hp⟩ := h
  subst hx
  exact ⟨⟨⟨_, ⟨r, hr, rfl⟩, isValid_resetReturn_finalReturn C cfg cwf j r hv⟩, ht⟩, hp⟩

theorem chanFinal_chanFinal (C : CzmilConsts) (hC : C.WellFormed) (cfg : Config)
    (cwf : CZMIL_CWF_Data) (j : Nat) (rets : List CZMIL_Return_Data) :
    chanFinal C cfg cwf j (chanFinal C cfg cwf j rets) = chanFinal C cfg cwf j rets := by
  simp only [chanFinal_eq_map, List.map_map]
  apply List.map_congr_left
  intro r _
  exact finalReturn_finalReturn C hC cfg cwf j r

theorem recAborts_recFinal (C : CzmilConsts) (cfg : Config) (cwf : CZMIL_CWF_Data)
    (cpf : CZMIL_CPF_Data) (n j0 : Nat) (h : recAborts C cfg cwf cpf n j0 = false) :
    recAborts C cfg cwf (recFinal C cfg cwf cpf n j0) n j0 = false := by
  rw [Bool.eq_false_iff] at h ⊢
  intro h2
  apply h
  rw [recAborts_iff] at h2 ⊢
  obtain ⟨j, h1, h3, h4, h5⟩ := h2
  refine ⟨j, h1, h3, h4, ?_⟩
  have e : (recFinal C cfg cwf cpf n j0).channel j = chanFinal C cfg cwf j (cpf.channel j) := by
    simp only [recFinal]
    rw [if_pos ⟨h1, h3, h4⟩]
  rw [e] at h5
  exact chanAborts_chanFinal C cfg cwf j _ h5

theorem recFinal_recFinal (C : CzmilConsts) (hC : C.WellFormed) (cfg : Config)
    (cwf : CZMIL_CWF_Data) (cpf : CZMIL_CPF_Data) (n j0 : Nat) :
    recFinal C cfg cwf (recFinal C cfg cwf cpf n j0) n j0 = recFinal C cfg cwf cpf n j0 := by
  simp only [recFinal, CZMIL_CPF_Data.mk.injEq]
  funext j
  by_cases hp : j0 ≤ j ∧ j < j0 + n ∧ cfg.channel j = true
  · simp only [if_pos hp, chanFinal_chanFinal C hC]
  · simp only [if_neg hp]

/-! ## C5: the record after a second pass -/

/-- C5: under a fixed configuration and a fixed waveform record, when the
processing of a point record completes, processing the resulting record again
completes too and leaves it as it is: `f (f r) = f r`. -/
theorem C5_record_fixed_point (C : CzmilConsts) (hC : C.WellFormed) (cfg : Config)
    (cwf : CZMIL_CWF_Data) (cpf : CZMIL_CPF_Data) (k k2 : Nat) (st : RecState)
    (h : processRecord C cfg cwf cpf k = some st) :
    ∃ st2, processRecord C cfg cwf st.cpf k2 = some st2 ∧ st2.cpf = st.cpf := by
  rw [processRecord_eq C hC] at h
  by_cases hab : recAborts C cfg cwf cpf 8 0 = true
  · simp [hab] at h
  · have hab0 : recAborts C cfg cwf cpf 8 0 = false := by simpa using hab
    simp only [hab0, if_false, Option.some.injEq, Bool.false_eq_true] at h
    subst h
    rw [processRecord_eq C hC]
    simp only [recAborts_recFinal C cfg cwf cpf 8 0 hab0, if_false, Bool.false_eq_true]
    exact ⟨_, rfl, recFinal_recFinal C hC cfg cwf cpf 8 0⟩

/-- The processing of a record completes exactly when no processed channel
exits, and then yields the closed form. -/
theorem processRecord_of_not_aborts (C : CzmilConsts) (hC : C.WellFormed) (cfg : Config)
    (cwf : CZMIL_CWF_Data) (cpf : CZMIL_CPF_Data) (k : Nat)
    (h : recAborts C cfg cwf cpf 8 0 = false) :
    processRecord C cfg cwf cpf k =
      some ⟨recFinal C cfg cwf cpf 8 0, k + recKills C cfg cwf cpf 8 0,
        recMod C cfg cwf cpf 8 0⟩ := by
  rw [processRecord_eq C hC, h]
  simp

/-- C5 on the record `cpfA` with the detector and the gate both firing on
channel 0: the first pass completes, these are the returns of channel 0 after
it, and the second pass completes and leaves the record as it is. -/
theorem C5_record_fixed_point_witness :
    ∃ st st2, processRecord czmil cfgBoth loudCwf cpfA 0 = some st ∧
      st.cpf.channel 0 = [⟨1, 24, 7⟩, ⟨2, 0, 8⟩, ⟨1, 24, 9⟩, ⟨1, 25, 10⟩] ∧
      processRecord czmil cfgBoth loudCwf st.cpf 0 = some st2 ∧ st2.cpf = st.cpf := by
  have h := processRecord_of_not_aborts czmil (by decide) cfgBoth loudCwf cpfA 0 (by decide)
  obtain ⟨st2, h2, h3⟩ :=
    C5_record_fixed_point czmil (by decide) cfgBoth loudCwf cpfA 0 0 _ h
  exact ⟨_, st2, h, by decide, h2, h3⟩

/-! ## C6, C7: base-invalid returns -/

theorem isBaseInval_resetReturn (C : CzmilConsts) (t : Int) (r : CZMIL_Return_Data) :
    isBaseInval C (resetReturn C t r) = isBaseInval C r := by
  unfold resetReturn
  by_cases h : isStale C t r = true
  · simp [h, isBaseInval, andNot_land_baseInvalMask]
  · simp [h]

/-- A base-invalid return of a processed channel goes through the stale reset
and nothing else. -/
theorem finalReturn_of_isBaseInval (C : CzmilConsts) (cfg : Config) (cwf : CZMIL_CWF_Data)
    (j : Nat) (r : CZMIL_Return_Data) (hb : isBaseInval C r = true) :
    finalReturn C cfg cwf j r = resetReturn C cfg.threshold r := by
  apply finalReturn_of_not_valid
  by_contra hv
  have hv1 : isValid C (resetReturn C cfg.threshold r) = true := by simpa using hv
  have := isBaseInval_of_isValid C _ hv1
  rw [isBaseInval_resetReturn, hb] at this
  exact Bool.false_ne_true this.symm

/-- The claim C6 fails: with `threshold = 50` the return `⟨3, 24, 9⟩` of channel
0 (base-invalid and filter-invalid bits set, reason digitizer-noise) ends with
the status word 2 and the reason 0. -/
theorem C6_base_invalid_untouched_counterexample :
    isBaseInval czmil ⟨3, 24, 9⟩ = true ∧
    (cpfBase.channel 0)[0]? = some ⟨3, 24, 9⟩ ∧
    (processRecord czmil cfg50 spikeCwf cpfBase 0).map (fun st => (st.cpf.channel 0)[0]?) =
      some (some ⟨2, 0, 9⟩) := by
  decide

/-- C6, amended: when the processing of a record completes, a return whose
base-invalid bit is set before it has the same status word and the same filter
reason after it, unless its channel is processed, `threshold > 0` and the
return is filter-invalid with reason digitizer-noise: then the stale reset
clears its filter-invalid bit and sets its reason to valid. In both cases the
base-invalid bit stays set. -/
theorem C6_base_invalid_reset_only (C : CzmilConsts) (hC : C.WellFormed) (cfg : Config)
    (cwf : CZMIL_CWF_Data) (cpf : CZMIL_CPF_Data) (k : Nat) (st : RecState)
    (h : processRecord C cfg cwf cpf k = some st)
    (j m : Nat) (r : CZMIL_Return_Data)
    (hr : (cpf.channel j)[m]? = some r) (hb : isBaseInval C r = true) :
    ∃ r', (st.cpf.channel j)[m]? = some r' ∧
      r' = (if processed cfg j = true ∧ 0 < cfg.threshold ∧ condemnedWith C C.CZMIL_DIGITIZER_NOISE r
            then { r with status := andNot r.status C.CZMIL_RETURN_FILTER_INVAL,
                          filter_reason := C.CZMIL_WAVEFORM_VALID }
            else r) ∧
      isBaseInval C r' = true := by
  rw [processRecord_channel C hC cfg cwf cpf k st h j]
  by_cases hp : processed cfg j = true
  · simp only [hp, if_true, List.getElem?_map, hr, Option.map_some', true_and,
      finalReturn_of_isBaseInval C cfg cwf j r hb]
    refine ⟨_, rfl, ?_, by rw [isBaseInval_resetReturn]; exact hb⟩
    simp only [resetReturn, isStale, condemnedWith, Bool.and_eq_true, decide_eq_true_eq,
      beq_iff_eq, and_assoc, gt_iff_lt]
  · have hp0 : processed cfg j = false := by simpa using hp
    simp only [hp0, Bool.false_eq_true, if_false, false_and, hr]
    exact ⟨r, rfl, rfl, hb⟩

/-- C6 (amended) on `cpfBase`: the base-invalid return `⟨3, 24, 9⟩` of channel 0
is reset to `⟨2, 0, 9⟩`. -/
theorem C6_base_invalid_reset_only_witness :
    ∃ st r', processRecord czmil cfg50 spikeCwf cpfBase 0 = some st ∧
      (st.cpf.channel 0)[0]? = some r' ∧ r' = ⟨2, 0, 9⟩ ∧ isBaseInval czmil r' = true := by
  have h := processRecord_of_not_aborts czmil (by decide) cfg50 spikeCwf cpfBase 0 (by decide)
  obtain ⟨r', h1, h2, h3⟩ :=
    C6_base_invalid_reset_only czmil (by decide) cfg50 spikeCwf cpfBase 0 _ h 0 0 ⟨3, 24, 9⟩
      (by decide) (by decide)
  exact ⟨_, r', h, h1, by rw [h2]; decide, h3⟩

theorem countP_eraseIdx_of_not {α : Type} (p : α → Bool) (l : List α) (m : Nat) (x : α)
    (h : l[m]? = some x) (hp : p x = false) : (l.eraseIdx m).countP p = l.countP p := by
  induction l generalizing m with
  | nil => simp at h
  | cons a l ih =>
    cases m with
    | zero =>
      simp only [List.getElem?_cons_zero, Option.some.injEq] at h
      subst h
      simp [List.countP_cons, hp]
    | succ m =>
      simp only [List.getElem?_cons_succ] at h
      simp [List.countP_cons, ih m h]

theorem any_eraseIdx_of_not {α : Type} (p : α → Bool) (l : List α) (m : Nat) (x : α)
    (h : l[m]? = some x) (hp : p x = false) : (l.eraseIdx m).any p = l.any p := by
  induction l generalizing m with
  | nil => simp at h
  | cons a l ih =>
    cases m with
    | zero =>
      simp only [List.getElem?_cons_zero, Option.some.injEq] at h
      subst h
      simp [hp]
    | succ m =>
      simp only [List.getElem?_cons_succ] at h
      simp only [List.eraseIdx_cons_succ, List.any_cons, ih m h]

theorem isValid_resetReturn_of_isBaseInval (C : CzmilConsts) (t : Int) (r : CZMIL_Return_Data)
    (hb : isBaseInval C r = true) : isValid C (resetReturn C t r) = false := by
  by_contra hv
  have hv1 : isValid C (resetReturn C t r) = true := by simpa using hv
  have := isBaseInval_of_isValid C _ hv1
  rw [isBaseInval_resetReturn, hb] at this
  exact Bool.false_ne_true this.symm

/-- Without a base-invalid return a channel adds the same to `kill_count`. -/
theorem chanKills_eraseIdx (C : CzmilConsts) (cfg : Config) (cwf : CZMIL_CWF_Data) (j : Nat)
    (rets : List CZMIL_Return_Data) (m : Nat) (r : CZMIL_Return_Data)
    (hr : rets[m]? = some r) (hb : isBaseInval C r = true) :
    chanKills C cfg cwf j (rets.eraseIdx m) = chanKills C cfg cwf j rets := by
  have e := countP_eraseIdx_of_not (fun x => isValid C (resetReturn C cfg.threshold x)) rets m r
    hr (isValid_resetReturn_of_isBaseInval C cfg.threshold r hb)
  simp only [chanKills, validAfterReset, afterReset_eq, List.countP_map]
  rw [show (isValid C ∘ resetReturn C cfg.threshold) =
    (fun x => isValid C (resetReturn C cfg.threshold x)) from rfl, e]

theorem chanAborts_eraseIdx (C : CzmilConsts) (cfg : Config) (cwf : CZMIL_CWF_Data) (j : Nat)
    (rets : List CZMIL_Return_Data) (m : Nat) (r : CZMIL_Return_Data)
    (hr : rets[m]? = some r) (hb : isBaseInval C r = true) :
    chanAborts C cfg cwf j (rets.eraseIdx m) = chanAborts C cfg cwf j rets := by
  have e := any_eraseIdx_of_not (fun x => isValid C (resetReturn C cfg.threshold x)) rets m r
    hr (isValid_resetReturn_of_isBaseInval C cfg.threshold r hb)
  simp only [chanAborts, afterReset_eq, List.any_map]
  rw [show (isValid C ∘ resetReturn C cfg.threshold) =
    (fun x => isValid C (resetReturn C cfg.threshold x)) from rfl, e]

theorem recKills_pointwise (C : CzmilConsts) (cfg : Config) (cwf : CZMIL_CWF_Data)
    (a b : CZMIL_CPF_Data) (n j0 : Nat)
    (h : ∀ j, chanKills C cfg cwf j (a.channel j) = chanKills C cfg cwf j (b.channel j)) :
    recKills C cfg cwf a n j0 = recKills C cfg cwf b n j0 := by
  induction n generalizing j0 with
  | zero => rfl
  | succ n ih => simp only [recKills, h j0, ih (j0 + 1)]

theorem recAborts_pointwise (C : CzmilConsts) (cfg : Config) (cwf : CZMIL_CWF_Data)
    (a b : CZMIL_CPF_Data) (n j0 : Nat)
    (h : ∀ j, chanAborts C cfg cwf j (a.channel j) = chanAborts C cfg cwf j (b.channel j)) :
    recAborts C cfg cwf a n j0 = recAborts C cfg cwf b n j0 := by
  induction n generalizing j0 with
  | zero => rfl
  | succ n ih => simp only [recAborts, h j0, ih (j0 + 1)]

/-- C7: when the processing of a record completes, a return whose base-invalid
bit is set before it has its filter-invalid bit set afterwards only if it was
set before, has the reason digitizer-noise (start-amplitude-exceeded)
afterwards only if it had it before, and adds nothing to `kill_count`: the
processing of the record without this return completes with the same
`kill_count`. -/
theorem C7_base_invalid_never_condemned (C : CzmilConsts) (hC : C.WellFormed) (cfg : Config)
    (cwf : CZMIL_CWF_Data) (cpf : CZMIL_CPF_Data) (k : Nat) (st : RecState)
    (h : processRecord C cfg cwf cpf k = some st)
    (j m : Nat) (r : CZMIL_Return_Data)
    (hr : (cpf.channel j)[m]? = some r) (hb : isBaseInval C r = true) :
    (∃ r', (st.cpf.channel j)[m]? = some r' ∧
      (isFilterInval C r' = true → isFilterInval C r = true) ∧
      (r'.filter_reason = C.CZMIL_DIGITIZER_NOISE →
        r.filter_reason = C.CZMIL_DIGITIZER_NOISE) ∧
      (r'.filter_reason = C.CZMIL_START_AMP_EXCEEDS_THRESHOLD →
        r.filter_reason = C.CZMIL_START_AMP_EXCEEDS_THRESHOLD)) ∧
    ∃ st2, processRecord C cfg cwf (eraseReturn cpf j m) k = some st2 ∧
      st2.kill_count = st.kill_count := by
  constructor
  · rw [processRecord_channel C hC cfg cwf cpf k st h j]
    by_cases hp : processed cfg j = true
    · simp only [hp, if_true, List.getElem?_map, hr, Option.map_some',
        finalReturn_of_isBaseInval C cfg cwf j r hb]
      refine ⟨_, rfl, ?_⟩
      by_cases hs : isStale C cfg.threshold r = true
      · have e : resetReturn C cfg.threshold r =
            { r with status := andNot r.status C.CZMIL_RETURN_FILTER_INVAL,
                     filter_reason := C.CZMIL_WAVEFORM_VALID } := by
          simp [resetReturn, hs]
        rw [e]
        refine ⟨?_, ?_, ?_⟩
        · intro hf
          simp [isFilterInval, andNot_land_self] at hf
        · intro hf
          exact absurd hf.symm hC.2.2.2.1
        · intro hf
          exact absurd hf.symm hC.2.2.2.2
      · have hs0 : isStale C cfg.threshold r = false := by simpa using hs
        rw [resetReturn_of_not_stale C _ _ hs0]
        exact ⟨id, id, id⟩
    · have hp0 : processed cfg j = false := by simpa using hp
      simp only [hp0, Bool.false_eq_true, if_false, hr]
      exact ⟨r, rfl, id, id, id⟩
  · have hk : ∀ i, chanKills C cfg cwf i ((eraseReturn cpf j m).channel i) =
        chanKills C cfg cwf i (cpf.channel i) := by
      intro i
      by_cases hi : i = j
      · subst hi
        simp only [eraseReturn, if_true]
        exact chanKills_eraseIdx C cfg cwf i _ m r hr hb
      · simp only [eraseReturn, if_neg hi]
    have ha : ∀ i, chanAborts C cfg cwf i ((eraseReturn cpf j m).channel i) =
        chanAborts C cfg cwf i (cpf.channel i) := by
      intro i
      by_cases hi : i = j
      · subst hi
        simp only [eraseReturn, if_true]
        exact chanAborts_eraseIdx C cfg cwf i _ m r hr hb
      · simp only [eraseReturn, if_neg hi]
    rw [processRecord_eq C hC] at h
    rw [processRecord_eq C hC, recAborts_pointwise C cfg cwf _ cpf 8 0 ha,
      recKills_pointwise C cfg cwf _ cpf 8 0 hk]
    by_cases hab : recAborts C cfg cwf cpf 8 0 = true
    · simp [hab] at h
    · simp only [hab, if_false, Option.some.injEq, Bool.false_eq_true] at h ⊢
      exact ⟨_, rfl, by rw [← h]⟩

/-- C7 on `cpfBase` with the detector firing on channel 0: the valid return
alone is counted, and the count is the same without the base-invalid return. -/
theorem C7_base_invalid_never_condemned_witness :
    ∃ st st2, processRecord czmil cfg50 spikeCwf cpfBase 0 = some st ∧
      st.kill_count = 1 ∧
      (∃ r', (st.cpf.channel 0)[0]? = some r' ∧
        (isFilterInval czmil r' = true → isFilterInval czmil ⟨3, 24, 9⟩ = true) ∧
        (r'.filter_reason = czmil.CZMIL_DIGITIZER_NOISE → (24 : Nat) = czmil.CZMIL_DIGITIZER_NOISE) ∧
        (r'.filter_reason = czmil.CZMIL_START_AMP_EXCEEDS_THRESHOLD →
          (24 : Nat) = czmil.CZMIL_START_AMP_EXCEEDS_THRESHOLD)) ∧
      processRecord czmil cfg50 spikeCwf (eraseReturn cpfBase 0 0) 0 = some st2 ∧
      st2.kill_count = st.kill_count := by
  have h := processRecord_of_not_aborts czmil (by decide) cfg50 spikeCwf cpfBase 0 (by decide)
  obtain ⟨h1, st2, h2, h3⟩ :=
    C7_base_invalid_never_condemned czmil (by decide) cfg50 spikeCwf cpfBase 0 _ h 0 0
      ⟨3, 24, 9⟩ (by decide) (by decide)
  exact ⟨_, st2, h, by decide, h1, h2, h3⟩

/-! ## C8: the deep channel -/

/-- C8: the code at the failing input. Channels 0 and 8 are selected, the deep
ceiling is 100, the shallow ceiling and the noise filter are disabled and both
waveforms start with the sample 101. The deep channel (index 8) passes the
test of lines 285-290, but the loop of line 208 stops before index 8: the
processing completes with the valid return of channel 8 still valid,
`kill_count` 0 and `mod_flag` false. (The shallow channel 0 is untouched, as
the claim says.) -/
theorem C8_deep_channel_not_processed :
    cfgDeep.channel 8 = true ∧ ampCheck cfgDeep deepCwf 8 = true ∧
    (processRecord czmil cfgDeep deepCwf deepCpf 0).map
        (fun st => (st.cpf.channel 8, st.cpf.channel 0, st.kill_count, st.mod_flag)) =
      some ([⟨0, 0, 11⟩], [⟨0, 0, 7⟩], 0, false) ∧
    (processChannel czmil cfgDeep deepCwf 8 ⟨deepCpf.channel 8, 0, false⟩) =
      some ⟨[⟨1, 25, 11⟩], 1, true⟩ := by
  decide

/-! ## C10: the noise filter disabled -/

theorem finalReturn_of_not_pos (C : CzmilConsts) (cfg : Config) (cwf : CZMIL_CWF_Data)
    (j : Nat) (r : CZMIL_Return_Data) (ht : cfg.threshold ≤ 0) :
    finalReturn C cfg cwf j r = r ∨
      (isValid C r = true ∧
        finalReturn C cfg cwf j r = markReturn C C.CZMIL_START_AMP_EXCEEDS_THRESHOLD r) := by
  have hn : noiseFired cfg cwf j = false := by
    have : ¬ cfg.threshold > 0 := by omega
    simp [noiseFired, this]
  have hr := resetReturn_of_not_stale C _ r (isStale_of_not_pos C cfg.threshold r ht)
  unfold finalReturn
  simp only [hn, Bool.false_eq_true, if_false, hr]
  by_cases ha : ampCheck cfg cwf j = true
  · by_cases hv : isValid C r = true
    · exact Or.inr ⟨hv, by simp [ha, condemnReturn, hv]⟩
    · exact Or.inl (by simp [ha, condemnReturn, hv])
  · exact Or.inl (by simp [ha])

theorem recAborts_of_not_pos (C : CzmilConsts) (cfg : Config) (cwf : CZMIL_CWF_Data)
    (cpf : CZMIL_CPF_Data) (n j0 : Nat) (ht : cfg.threshold ≤ 0) :
    recAborts C cfg cwf cpf n j0 = false := by
  have : ¬ cfg.threshold > 0 := by omega
  induction n generalizing j0 with
  | zero => rfl
  | succ n ih => simp [recAborts, chanAborts, this, ih]

/-- C10: with `threshold ≤ 0` the processing of every record completes,
whatever the waveform; a return whose reason is digitizer-noise afterwards is
a return the run has not changed (the reason is never set by the run), and a
return that is filter-invalid with reason digitizer-noise before the run is
unchanged, so still filter-invalid with reason digitizer-noise (no stale
reset). -/
theorem C10_threshold_disables_noise (C : CzmilConsts) (hC : C.WellFormed) (cfg : Config)
    (cwf : CZMIL_CWF_Data) (cpf : CZMIL_CPF_Data) (k : Nat) (ht : cfg.threshold ≤ 0) :
    ∃ st, processRecord C cfg cwf cpf k = some st ∧
      ∀ (j m : Nat) (r : CZMIL_Return_Data), (cpf.channel j)[m]? = some r →
        ∃ r', (st.cpf.channel j)[m]? = some r' ∧
          (r'.filter_reason = C.CZMIL_DIGITIZER_NOISE → r' = r) ∧
          (condemnedWith C C.CZMIL_DIGITIZER_NOISE r →
            r' = r ∧ condemnedWith C C.CZMIL_DIGITIZER_NOISE r') := by
  have h := processRecord_of_not_aborts C hC cfg cwf cpf k
    (recAborts_of_not_pos C cfg cwf cpf 8 0 ht)
  refine ⟨_, h, ?_⟩
  intro j m r hr
  rw [processRecord_channel C hC cfg cwf cpf k _ h j]
  by_cases hp : processed cfg j = true
  · simp only [hp, if_true, List.getElem?_map, hr, Option.map_some']
    refine ⟨_, rfl, ?_⟩
    rcases finalReturn_of_not_pos C cfg cwf j r ht with e | ⟨hv, e⟩
    · rw [e]
      exact ⟨fun _ => rfl, fun hc => ⟨rfl, hc⟩⟩
    · rw [e]
      constructor
      · intro hf
        exact absurd hf.symm hC.2.2.1
      · intro hc
        have := isFilterInval_of_isValid C hC r hv
        rw [hc.1] at this
        exact absurd this (by simp)
  · have hp0 : processed cfg j = false := by simpa using hp
    simp only [hp0, Bool.false_eq_true, if_false, hr]
    exact ⟨r, rfl, fun _ => rfl, fun hc => ⟨rfl, hc⟩⟩

/-- C10 on channel 0 of `cpfA` with `threshold = -5` and the shallow gate
firing: the return `⟨1, 24, 9⟩` (filter-invalid, digitizer-noise) is kept, the
valid return is condemned for the start amplitude. -/
theorem C10_threshold_disables_noise_witness :
    ∃ st, processRecord czmil cfgOff loudCwf cpfA 0 = some st ∧
      st.cpf.channel 0 = [⟨1, 25, 7⟩, ⟨2, 0, 8⟩, ⟨1, 24, 9⟩, ⟨1, 25, 10⟩] ∧
      ∀ (j m : Nat) (r : CZMIL_Return_Data), (cpfA.channel j)[m]? = some r →
        ∃ r', (st.cpf.channel j)[m]? = some r' ∧
          (r'.filter_reason = czmil.CZMIL_DIGITIZER_NOISE → r' = r) ∧
          (condemnedWith czmil czmil.CZMIL_DIGITIZER_NOISE r →
            r' = r ∧ condemnedWith czmil czmil.CZMIL_DIGITIZER_NOISE r') := by
  obtain ⟨st, h1, h2⟩ :=
    C10_threshold_disables_noise czmil (by decide) cfgOff loudCwf cpfA 0 (by decide)
  refine ⟨st, h1, ?_, h2⟩
  have h := processRecord_of_not_aborts czmil (by decide) cfgOff loudCwf cpfA 0 (by decide)
  rw [h] at h1
  simp only [Option.some.injEq] at h1
  rw [← h1]
  decide

/-! ## The pass over the store -/

theorem recMod_eq_false (C : CzmilConsts) (cfg : Config) (cwf : CZMIL_CWF_Data)
    (cpf : CZMIL_CPF_Data) (n j0 : Nat) (h : recMod C cfg cwf cpf n j0 = false)
    (j : Nat) (h1 : j0 ≤ j) (h2 : j < j0 + n) (h3 : cfg.channel j = true) :
    chanMod C cfg cwf j (cpf.channel j) = false := by
  induction n generalizing j0 with
  | zero => omega
  | succ n ih =>
    simp only [recMod, Bool.or_eq_false_iff, Bool.and_eq_false_imp] at h
    by_cases hj : j = j0
    · subst hj; exact h.1 h3
    · exact ih (j0 + 1) h.2 (by omega) (by omega)

theorem map_resetReturn_of_none_stale (C : CzmilConsts) (t : Int)
    (rs : List CZMIL_Return_Data) (h : rs.any (isStale C t) = false) :
    rs.map (resetReturn C t) = rs := by
  induction rs with
  | nil => rfl
  | cons r rs ih =>
    simp only [List.any_cons, Bool.or_eq_false_iff] at h
    simp [resetReturn_of_not_stale C t r h.1, ih h.2]

/-- A channel that does not set `mod_flag` is left as it was. -/
theorem chanFinal_of_not_mod (C : CzmilConsts) (cfg : Config) (cwf : CZMIL_CWF_Data) (j : Nat)
    (rets : List CZMIL_Return_Data) (h : chanMod C cfg cwf j rets = false) :
    chanFinal C cfg cwf j rets = rets := by
  simp only [chanMod, Bool.or_eq_false_iff] at h
  have e : afterReset C cfg.threshold rets = rets := by
    rw [afterReset_eq]; exact map_resetReturn_of_none_stale C _ _ h.1
  have h2 := h.2
  rw [e] at h2
  unfold chanFinal
  rw [e]
  by_cases hn : noiseFired cfg cwf j = true
  · simp only [hn, Bool.true_or, Bool.true_and] at h2
    simp only [hn, if_true, map_condemnReturn_of_none_valid C _ _ h2]
  · have hn0 : noiseFired cfg cwf j = false := by simpa using hn
    by_cases ha : ampCheck cfg cwf j = true
    · simp only [hn0, ha, Bool.false_or, Bool.true_and] at h2
      simp only [hn0, ha, if_true, if_false, Bool.false_eq_true,
        map_condemnReturn_of_none_valid C _ _ h2]
    · have ha0 : ampCheck cfg cwf j = false := by simpa using ha
      simp only [hn0, ha0, if_false, Bool.false_eq_true]

/-- A record whose processing does not set `mod_flag` is left as it was. -/
theorem recFinal_of_not_mod (C : CzmilConsts) (cfg : Config) (cwf : CZMIL_CWF_Data)
    (cpf : CZMIL_CPF_Data) (n j0 : Nat) (h : recMod C cfg cwf cpf n j0 = false) :
    recFinal C cfg cwf cpf n j0 = cpf := by
  cases cpf with
  | mk ch =>
    simp only [recFinal, CZMIL_CPF_Data.mk.injEq]
    funext j
    by_cases hp : j0 ≤ j ∧ j < j0 + n ∧ cfg.channel j = true
    · rw [if_pos hp]
      exact chanFinal_of_not_mod C cfg cwf j _
        (recMod_eq_false C cfg cwf ⟨ch⟩ n j0 h j hp.1 hp.2.1 hp.2.2)
    · rw [if_neg hp]

/-- The pass over the store in closed form. -/
theorem runFrom_eq (C : CzmilConsts) (hC : C.WellFormed) (cfg : Config)
    (store : List (CZMIL_CPF_Data × CZMIL_CWF_Data)) (k : Nat) :
    runFrom C cfg store k =
      if storeAborts C cfg store then none
      else some (storeFinal C cfg store, k + storeKills C cfg store) := by
  induction store generalizing k with
  | nil => simp [runFrom, storeAborts, storeFinal, storeKills]
  | cons p rest ih =>
    obtain ⟨cpf, cwf⟩ := p
    simp only [runFrom, storeAborts, storeKills, storeFinal, List.map_cons,
      processRecord_eq C hC]
    by_cases hab : recAborts C cfg cwf cpf 8 0 = true
    · simp [hab]
    · have hab0 : recAborts C cfg cwf cpf 8 0 = false := by simpa using hab
      simp only [hab0, Bool.false_eq_true, if_false, Option.some_bind, ih, Bool.false_or]
      by_cases hs : storeAborts C cfg rest = true
      · simp [hs]
      · have hs0 : storeAborts C cfg rest = false := by simpa using hs
        simp only [hs0, Bool.false_eq_true, if_false, Option.map_some', Option.some.injEq,
          Prod.mk.injEq, List.cons.injEq]
        refine ⟨⟨?_, rfl⟩, by omega⟩
        by_cases hm : recMod C cfg cwf cpf 8 0 = true
        · simp [hm]
        · have hm0 : recMod C cfg cwf cpf 8 0 = false := by simpa using hm
          simp only [hm0, Bool.false_eq_true, if_false]
          exact (recFinal_of_not_mod C cfg cwf cpf 8 0 hm0).symm

/-! ## The second pass -/

theorem not_condemnedWith_noise_resetReturn (C : CzmilConsts) (t : Int) (ht : 0 < t)
    (r : CZMIL_Return_Data) : ¬ condemnedWith C C.CZMIL_DIGITIZER_NOISE (resetReturn C t r) := by
  intro hc
  have h := isStale_resetReturn C t r
  simp only [isStale, hc.1, hc.2, ht, gt_iff_lt, decide_True, Bool.and_self, beq_self_eq_true,
    Bool.true_eq_false] at h

/-- The returns that the stale reset of a second pass makes valid are those the
noise condemnation of the first pass has marked. -/
theorem isValid_second_pass (C : CzmilConsts) (hC : C.WellFormed) (cfg : Config)
    (cwf : CZMIL_CWF_Data) (j : Nat) (r : CZMIL_Return_Data)
    (hf : (noiseFired cfg cwf j || ampCheck cfg cwf j) = true) :
    isValid C (resetReturn C cfg.threshold (finalReturn C cfg cwf j r)) =
      (noiseFired cfg cwf j && isValid C (resetReturn C cfg.threshold r)) := by
  by_cases hv : isValid C (resetReturn C cfg.threshold r) = true
  · by_cases hn : noiseFired cfg cwf j = true
    · have ht := noiseFired_pos cfg cwf j hn
      simp only [finalReturn, hn, if_true, condemnReturn, hv, Bool.and_self]
      rw [resetReturn_markReturn_noise C hC cfg.threshold ht _ hv]
      simpa [isValid] using hv
    · have hn0 : noiseFired cfg cwf j = false := by simpa using hn
      have ha : ampCheck cfg cwf j = true := by simpa [hn0] using hf
      simp only [finalReturn, hn0, ha, if_true, if_false, Bool.false_eq_true, condemnReturn, hv,
        Bool.false_and]
      rw [resetReturn_of_not_stale C _ _ (isStale_markReturn_amp C hC _ _)]
      exact isValid_markReturn C hC _ _
  · have hv0 : isValid C (resetReturn C cfg.threshold r) = false := by simpa using hv
    rw [finalReturn_of_not_valid C cfg cwf j r hv0, resetReturn_resetReturn, hv0]
    simp

/-- With `threshold > 0`, the returns that a pass leaves filter-invalid with
reason digitizer-noise are those its noise condemnation has marked. -/
theorem condemnedWith_noise_finalReturn (C : CzmilConsts) (hC : C.WellFormed) (cfg : Config)
    (cwf : CZMIL_CWF_Data) (j : Nat) (r : CZMIL_Return_Data) (ht : 0 < cfg.threshold) :
    decide (condemnedWith C C.CZMIL_DIGITIZER_NOISE (finalReturn C cfg cwf j r)) =
      (noiseFired cfg cwf j && isValid C (resetReturn C cfg.threshold r)) := by
  by_cases hv : isValid C (resetReturn C cfg.threshold r) = true
  · by_cases hn : noiseFired cfg cwf j = true
    · have hc := condemnedWith_condemnReturn C hC C.CZMIL_DIGITIZER_NOISE _ hv
      simp only [finalReturn, hn, if_true, hv, Bool.and_self, decide_eq_true_eq]
      exact hc
    · have hn0 : noiseFired cfg cwf j = false := by simpa using hn
      simp only [hn0, Bool.false_and, decide_eq_false_iff_not]
      intro hc
      by_cases ha : ampCheck cfg cwf j = true
      · simp only [finalReturn, hn0, ha, if_true, if_false, Bool.false_eq_true, condemnReturn, hv,
          condemnedWith, markReturn] at hc
        exact hC.2.2.1 hc.2.symm
      · have ha0 : ampCheck cfg cwf j = false := by simpa using ha
        simp only [finalReturn, hn0, ha0, if_false, Bool.false_eq_true] at hc
        exact not_condemnedWith_noise_resetReturn C _ ht r hc
  · have hv0 : isValid C (resetReturn C cfg.threshold r) = false := by simpa using hv
    rw [finalReturn_of_not_valid C cfg cwf j r hv0, hv0]
    simp only [Bool.and_false, decide_eq_false_iff_not]
    exact not_condemnedWith_noise_resetReturn C _ ht r

/-- What a second pass over a channel adds to `kill_count`. -/
theorem chanKills_chanFinal (C : CzmilConsts) (hC : C.WellFormed) (cfg : Config)
    (cwf : CZMIL_CWF_Data) (j : Nat) (rets : List CZMIL_Return_Data) :
    chanKills C cfg cwf j (chanFinal C cfg cwf j rets) =
      if 0 < cfg.threshold then
        (chanFinal C cfg cwf j rets).countP
          (fun r => decide (condemnedWith C C.CZMIL_DIGITIZER_NOISE r))
      else 0 := by
  have key : chanKills C cfg cwf j (chanFinal C cfg cwf j rets) =
      rets.countP (fun r => noiseFired cfg cwf j && isValid C (resetReturn C cfg.threshold r)) := by
    simp only [chanKills, validAfterReset, afterReset_eq, chanFinal_eq_map, List.countP_map]
    by_cases hf : (noiseFired cfg cwf j || ampCheck cfg cwf j) = true
    · rw [if_pos hf]
      apply List.countP_congr
      intro r _
      simp only [Function.comp_apply, isValid_second_pass C hC cfg cwf j r hf]
    · have hf0 : (noiseFired cfg cwf j || ampCheck cfg cwf j) = false := by simpa using hf
      have hn0 : noiseFired cfg cwf j = false := (Bool.or_eq_false_iff.mp hf0).1
      rw [if_neg hf]
      simp [hn0]
  rw [key]
  by_cases ht : 0 < cfg.threshold
  · rw [if_pos ht, chanFinal_eq_map, List.countP_map]
    apply List.countP_congr
    intro r _
    simp only [Function.comp_apply, condemnedWith_noise_finalReturn C hC cfg cwf j r ht]
  · rw [if_neg ht]
    have hn0 : noiseFired cfg cwf j = false := by
      simp [noiseFired, ht]
    simp [hn0]

theorem recKills_recFinal (C : CzmilConsts) (hC : C.WellFormed) (cfg : Config)
    (cwf : CZMIL_CWF_Data) (cpf : CZMIL_CPF_Data) (n j0 : Nat) (h : j0 + n ≤ 8) :
    recKills C cfg cwf (recFinal C cfg cwf cpf 8 0) n j0 =
      if 0 < cfg.threshold then noiseCondemnedIn C cfg (recFinal C cfg cwf cpf 8 0) n j0
      else 0 := by
  induction n generalizing j0 with
  | zero => simp [recKills, noiseCondemnedIn]
  | succ n ih =>
    simp only [recKills, noiseCondemnedIn, ih (j0 + 1) (by omega)]
    by_cases he : cfg.channel j0 = true
    · have e : (recFinal C cfg cwf cpf 8 0).channel j0 =
          chanFinal C cfg cwf j0 (cpf.channel j0) := by
        simp only [recFinal]
        rw [if_pos ⟨Nat.zero_le _, by omega, he⟩]
      simp only [he, if_true, e, chanKills_chanFinal C hC]
      split_ifs <;> rfl
    · have he0 : cfg.channel j0 = false := by simpa using he
      simp only [he0, Bool.false_eq_true, if_false, Nat.zero_add]

theorem restore_storeFinal (C : CzmilConsts) (cfg : Config)
    (store : List (CZMIL_CPF_Data × CZMIL_CWF_Data)) :
    restore (storeFinal C cfg store) store =
      store.map (fun p => (recFinal C cfg p.2 p.1 8 0, p.2)) := by
  induction store with
  | nil => rfl
  | cons p rest ih =>
    simp only [restore, storeFinal, List.map_cons, List.zip_cons_cons, List.cons.injEq,
      true_and] at ih ⊢
    exact ih

theorem storeAborts_second (C : CzmilConsts) (cfg : Config)
    (store : List (CZMIL_CPF_Data × CZMIL_CWF_Data)) (h : storeAborts C cfg store = false) :
    storeAborts C cfg (store.map (fun p => (recFinal C cfg p.2 p.1 8 0, p.2))) = false := by
  induction store with
  | nil => rfl
  | cons p rest ih =>
    obtain ⟨cpf, cwf⟩ := p
    simp only [storeAborts, Bool.or_eq_false_iff] at h
    simp only [List.map_cons, storeAborts, Bool.or_eq_false_iff]
    exact ⟨recAborts_recFinal C cfg cwf cpf 8 0 h.1, ih h.2⟩

theorem storeFinal_second (C : CzmilConsts) (hC : C.WellFormed) (cfg : Config)
    (store : List (CZMIL_CPF_Data × CZMIL_CWF_Data)) :
    storeFinal C cfg (store.map (fun p => (recFinal C cfg p.2 p.1 8 0, p.2))) =
      storeFinal C cfg store := by
  simp only [storeFinal, List.map_map]
  apply List.map_congr_left
  intro p _
  exact recFinal_recFinal C hC cfg p.2 p.1 8 0

theorem storeKills_second (C : CzmilConsts) (hC : C.WellFormed) (cfg : Config)
    (store : List (CZMIL_CPF_Data × CZMIL_CWF_Data)) :
    storeKills C cfg (store.map (fun p => (recFinal C cfg p.2 p.1 8 0, p.2))) =
      if 0 < cfg.threshold then storeNoiseCondemned C cfg (storeFinal C cfg store) else 0 := by
  induction store with
  | nil => simp [storeKills, storeNoiseCondemned, storeFinal]
  | cons p rest ih =>
    obtain ⟨cpf, cwf⟩ := p
    simp only [List.map_cons, storeKills, ih, storeFinal, storeNoiseCondemned,
      recKills_recFinal C hC cfg cwf cpf 8 0 (le_refl 8)]
    split_ifs <;> rfl

/-! ## C4: the count of a second run -/

/-- The claim C4 fails: on the store `storeA` (one valid return in the processed
channel 0, spike waveform) with `threshold = 50`, the first run reports 1
invalidated return and the second run, on the resulting records with the same
configuration and waveforms, reports 1 again, not 0. -/
theorem C4_second_run_count_counterexample :
    (run czmil cfg50 storeA).map Prod.snd = some 1 ∧
    (run czmil cfg50 storeA).bind
        (fun o => (run czmil cfg50 (restore o.1 storeA)).map Prod.snd) = some 1 := by
  decide

/-- C4, amended: when a run completes and the engine is run again on the
resulting records with the same configuration and the same waveforms, the
second run completes, leaves every record as the first run left it, and
reports as its count, when `threshold > 0`, the number of returns of processed
channels that the first run left filter-invalid with reason digitizer-noise
(it resets them, condemns them again and counts them again) and 0 when
`threshold ≤ 0`; returns condemned for the start amplitude are never counted
again. -/
theorem C4_second_run_count (C : CzmilConsts) (hC : C.WellFormed) (cfg : Config)
    (store : List (CZMIL_CPF_Data × CZMIL_CWF_Data)) (out : List CZMIL_CPF_Data) (n : Nat)
    (h : run C cfg store = some (out, n)) :
    run C cfg (restore out store) =
      some (out, if 0 < cfg.threshold then storeNoiseCondemned C cfg out else 0) := by
  unfold run at h ⊢
  rw [runFrom_eq C hC] at h
  by_cases hab : storeAborts C cfg store = true
  · simp [hab] at h
  · have hab0 : storeAborts C cfg store = false := by simpa using hab
    simp only [hab0, Bool.false_eq_true, if_false, Option.some.injEq, Prod.mk.injEq] at h
    rw [← h.1, restore_storeFinal, runFrom_eq C hC, storeAborts_second C cfg store hab0,
      storeFinal_second C hC, storeKills_second C hC]
    simp

/-- C4 (amended) on `storeA`: with `threshold = 50` the second run counts the
one return the first run condemned for digitizer noise; the first run
completes with the count 1. -/
theorem C4_second_run_count_witness :
    ∃ out, run czmil cfg50 storeA = some (out, 1) ∧
      storeNoiseCondemned czmil cfg50 out = 1 ∧
      run czmil cfg50 (restore out storeA) =
        some (out, if 0 < cfg50.threshold then storeNoiseCondemned czmil cfg50 out else 0) := by
  have h : run czmil cfg50 storeA = some (storeFinal czmil cfg50 storeA, 1) := by
    unfold run
    rw [runFrom_eq czmil (by decide), if_neg (by decide)]
    rfl
  exact ⟨_, h, by decide,
    C4_second_run_count czmil (by decide) cfg50 storeA _ 1 h⟩

/-! ## C12: the frame of the engine -/

theorem resetReturn_frame (C : CzmilConsts) (t : Int) (r : CZMIL_Return_Data) :
    (resetReturn C t r).measurement = r.measurement ∧
      andNot (resetReturn C t r).status C.CZMIL_RETURN_FILTER_INVAL =
        andNot r.status C.CZMIL_RETURN_FILTER_INVAL := by
  unfold resetReturn
  by_cases h : isStale C t r = true
  · simp [h, andNot_andNot]
  · simp [h]

theorem condemnReturn_frame (C : CzmilConsts) (reason : Nat) (r : CZMIL_Return_Data) :
    (condemnReturn C reason r).measurement = r.measurement ∧
      andNot (condemnReturn C reason r).status C.CZMIL_RETURN_FILTER_INVAL =
        andNot r.status C.CZMIL_RETURN_FILTER_INVAL := by
  unfold condemnReturn
  by_cases h : isValid C r = true
  · simp [h, markReturn, andNot_lor]
  · simp [h]

/-- The pass over a channel changes nothing in a return but the filter-invalid
bits of the status word and the filter reason. -/
theorem finalReturn_frame (C : CzmilConsts) (cfg : Config) (cwf : CZMIL_CWF_Data) (j : Nat)
    (r : CZMIL_Return_Data) :
    (finalReturn C cfg cwf j r).measurement = r.measurement ∧
      andNot (finalReturn C cfg cwf j r).status C.CZMIL_RETURN_FILTER_INVAL =
        andNot r.status C.CZMIL_RETURN_FILTER_INVAL := by
  have a := resetReturn_frame C cfg.threshold r
  have b := condemnReturn_frame C C.CZMIL_DIGITIZER_NOISE (resetReturn C cfg.threshold r)
  have c := condemnReturn_frame C C.CZMIL_START_AMP_EXCEEDS_THRESHOLD
    (resetReturn C cfg.threshold r)
  unfold finalReturn
  split_ifs
  · exact ⟨b.1.trans a.1, b.2.trans a.2⟩
  · exact ⟨c.1.trans a.1, c.2.trans a.2⟩
  · exact a

theorem testBit_of_andNot_eq {s s' F : Nat} (h : andNot s' F = andNot s F) (i : Nat)
    (hi : F.testBit i = false) : s'.testBit i = s.testBit i := by
  have e := congrArg (fun x => x.testBit i) h
  simp only [testBit_andNot, hi, Bool.not_false, Bool.and_true] at e
  exact e

theorem land_baseInvalMask_of_andNot_eq (C : CzmilConsts) {s s' : Nat}
    (h : andNot s' C.CZMIL_RETURN_FILTER_INVAL = andNot s C.CZMIL_RETURN_FILTER_INVAL) :
    s' &&& C.baseInvalMask = s &&& C.baseInvalMask := by
  rw [← andNot_land_baseInvalMask C s', ← andNot_land_baseInvalMask C s, h]

/-- C12: when the processing of a record completes, every channel has as many
returns as before, and every return has the same measurement fields and the
same status bits outside the filter-invalid mask as before (the base-invalid
bit among them): only the filter-invalid bit and the filter reason can differ.
The waveform record is only read. -/
theorem C12_frame (C : CzmilConsts) (hC : C.WellFormed) (cfg : Config)
    (cwf : CZMIL_CWF_Data) (cpf : CZMIL_CPF_Data) (k : Nat) (st : RecState)
    (h : processRecord C cfg cwf cpf k = some st) (j : Nat) :
    (st.cpf.channel j).length = (cpf.channel j).length ∧
    ∀ (m : Nat) (r : CZMIL_Return_Data), (cpf.channel j)[m]? = some r →
      ∃ r', (st.cpf.channel j)[m]? = some r' ∧
        r'.measurement = r.measurement ∧
        (∀ i, C.CZMIL_RETURN_FILTER_INVAL.testBit i = false →
          r'.status.testBit i = r.status.testBit i) ∧
        isBaseInval C r' = isBaseInval C r := by
  rw [processRecord_channel C hC cfg cwf cpf k st h j]
  by_cases hp : processed cfg j = true
  · simp only [hp, if_true, List.length_map, List.getElem?_map, true_and]
    intro m r hr
    have f := finalReturn_frame C cfg cwf j r
    refine ⟨_, by rw [hr]; rfl, f.1, testBit_of_andNot_eq f.2, ?_⟩
    simp only [isBaseInval, land_baseInvalMask_of_andNot_eq C f.2]
  · have hp0 : processed cfg j = false := by simpa using hp
    simp only [hp0, Bool.false_eq_true, if_false, true_and]
    intro m r hr
    exact ⟨r, hr, rfl, fun _ _ => rfl, rfl⟩

/-- C12 on `cpfA` with the detector and the gate firing on channel 0. -/
theorem C12_frame_witness :
    ∃ st, processRecord czmil cfgBoth loudCwf cpfA 0 = some st ∧
      (st.cpf.channel 0).length = (cpfA.channel 0).length ∧
      ∀ (m : Nat) (r : CZMIL_Return_Data), (cpfA.channel 0)[m]? = some r →
        ∃ r', (st.cpf.channel 0)[m]? = some r' ∧
          r'.measurement = r.measurement ∧
          (∀ i, czmil.CZMIL_RETURN_FILTER_INVAL.testBit i = false →
            r'.status.testBit i = r.status.testBit i) ∧
          isBaseInval czmil r' = isBaseInval czmil r := by
  have h := processRecord_of_not_aborts czmil (by decide) cfgBoth loudCwf cpfA 0 (by decide)
  obtain ⟨h1, h2⟩ := C12_frame czmil (by decide) cfgBoth loudCwf cpfA 0 _ h 0
  exact ⟨_, h, h1, h2⟩

/-! ## C13: a channel without a valid return -/

/-- C13: in a channel in which every return has the base-invalid or the
filter-invalid bit set and in which the stale reset alters nothing
(`threshold ≤ 0`, or no return is filter-invalid with reason digitizer-noise),
the pass over the channel completes and changes nothing: the returns,
`kill_count` and `mod_flag` are as before, whatever the waveform and the
ceilings are. -/
theorem C13_skip_without_valid (C : CzmilConsts) (hC : C.WellFormed) (cfg : Config)
    (cwf : CZMIL_CWF_Data) (j : Nat) (st : ChanState)
    (hinv : ∀ r ∈ st.returns, isBaseInval C r = true ∨ isFilterInval C r = true)
    (hquiet : cfg.threshold ≤ 0 ∨
      ∀ r ∈ st.returns, ¬ condemnedWith C C.CZMIL_DIGITIZER_NOISE r) :
    processChannel C cfg cwf j st = some st := by
  have hs : st.returns.any (isStale C cfg.threshold) = false := by
    rw [Bool.eq_false_iff]
    intro h
    simp only [List.any_eq_true] at h
    obtain ⟨r, hr, hst⟩ := h
    rcases hquiet with ht | hq
    · rw [isStale_of_not_pos C _ r ht] at hst
      exact Bool.false_ne_true hst
    · apply hq r hr
      simp only [isStale, Bool.and_eq_true, decide_eq_true_eq, beq_iff_eq] at hst
      exact ⟨hst.1.2, hst.2⟩
  have he : afterReset C cfg.threshold st.returns = st.returns := by
    rw [afterReset_eq]; exact map_resetReturn_of_none_stale C _ _ hs
  have hv : st.returns.any (isValid C) = false := by
    rw [Bool.eq_false_iff]
    intro h
    simp only [List.any_eq_true] at h
    obtain ⟨r, hr, hvr⟩ := h
    rcases hinv r hr with hb | hf
    · rw [isBaseInval_of_isValid C r hvr] at hb
      exact Bool.false_ne_true hb
    · rw [isFilterInval_of_isValid C hC r hvr] at hf
      exact Bool.false_ne_true hf
  rw [processChannel_eq C hC]
  simp only [chanAborts, validAfterReset, he, hv, hs, Bool.false_and, Bool.and_false,
    Bool.false_eq_true, if_false, Bool.or_false, map_condemnReturn_of_none_valid C _ _ hv,
    countP_isValid_of_none_valid C _ hv, ite_self, Nat.add_zero]

/-- C13 on a channel with a base-invalid return and a return condemned for the
start amplitude, with the detector and the gate both set to fire. -/
theorem C13_skip_without_valid_witness :
    processChannel czmil cfgBoth loudCwf 0 ⟨[⟨2, 0, 8⟩, ⟨1, 25, 10⟩], 3, false⟩ =
      some ⟨[⟨2, 0, 8⟩, ⟨1, 25, 10⟩], 3, false⟩ :=
  C13_skip_without_valid czmil (by decide) cfgBoth loudCwf 0 ⟨[⟨2, 0, 8⟩, ⟨1, 25, 10⟩], 3, false⟩
    (by decide) (Or.inr (by decide))

/-! ## C15: the changed flag -/

theorem recMod_iff (C : CzmilConsts) (cfg : Config) (cwf : CZMIL_CWF_Data)
    (cpf : CZMIL_CPF_Data) (n j0 : Nat) :
    recMod C cfg cwf cpf n j0 = true ↔
      ∃ j, j0 ≤ j ∧ j < j0 + n ∧ cfg.channel j = true ∧
        chanMod C cfg cwf j (cpf.channel j) = true := by
  induction n generalizing j0 with
  | zero =>
    simp only [recMod, Bool.false_eq_true, false_iff]
    rintro ⟨j, h1, h2, _⟩
    omega
  | succ n ih =>
    simp only [recMod, Bool.or_eq_true, Bool.and_eq_true, ih]
    constructor
    · rintro (⟨h1, h2⟩ | ⟨j, h1, h2, h3, h4⟩)
      · exact ⟨j0, le_refl j0, by omega, h1, h2⟩
      · exact ⟨j, by omega, by omega, h3, h4⟩
    · rintro ⟨j, h1, h2, h3, h4⟩
      by_cases hj : j = j0
      · subst hj; exact Or.inl ⟨h3, h4⟩
      · exact Or.inr ⟨j, by omega, by omega, h3, h4⟩

/-- C15: when the processing of a record completes, `mod_flag` is true if and
only if, in some processed channel, a return passed the test of the stale reset
(lines 222-226) or a return was valid after the reset while the noise detector
or the amplitude gate fired (so was condemned); and when `mod_flag` is false
the record in memory is the record that was read. -/
theorem C15_changed_flag (C : CzmilConsts) (hC : C.WellFormed) (cfg : Config)
    (cwf : CZMIL_CWF_Data) (cpf : CZMIL_CPF_Data) (k : Nat) (st : RecState)
    (h : processRecord C cfg cwf cpf k = some st) :
    (st.mod_flag = true ↔
      ∃ j, processed cfg j = true ∧
        ((∃ r ∈ cpf.channel j, isStale C cfg.threshold r = true) ∨
          ((noiseFired cfg cwf j = true ∨ ampCheck cfg cwf j = true) ∧
            ∃ r ∈ afterReset C cfg.threshold (cpf.channel j), isValid C r = true))) ∧
    (st.mod_flag = false → st.cpf = cpf) := by
  rw [processRecord_eq C hC] at h
  by_cases hab : recAborts C cfg cwf cpf 8 0 = true
  · simp [hab] at h
  · simp only [hab, if_false, Option.some.injEq, Bool.false_eq_true] at h
    subst h
    constructor
    · simp only [recMod_iff, processed, chanMod, Bool.and_eq_true, Bool.or_eq_true,
        decide_eq_true_eq, List.any_eq_true, Nat.zero_le, true_and, Nat.zero_add]
      constructor
      · rintro ⟨j, h1, h2, h3⟩
        exact ⟨j, ⟨h1, h2⟩, h3⟩
      · rintro ⟨j, ⟨h1, h2⟩, h3⟩
        exact ⟨j, h1, h2, h3⟩
    · intro hm
      exact recFinal_of_not_mod C cfg cwf cpf 8 0 hm

/-- C15 on `cpfA`: with the detector firing the flag is set; with the noise
filter disabled and nothing above the shallow ceiling the flag stays false and
the record is the one that was read. -/
theorem C15_changed_flag_witness :
    (∃ st, processRecord czmil cfg50 spikeCwf cpfA 0 = some st ∧ st.mod_flag = true ∧
      ∃ j, processed cfg50 j = true ∧
        ((∃ r ∈ cpfA.channel j, isStale czmil cfg50.threshold r = true) ∨
          ((noiseFired cfg50 spikeCwf j = true ∨ ampCheck cfg50 spikeCwf j = true) ∧
            ∃ r ∈ afterReset czmil cfg50.threshold (cpfA.channel j),
              isValid czmil r = true))) ∧
    ∃ st, processRecord czmil cfgOff spikeCwf cpfA 0 = some st ∧ st.mod_flag = false ∧
      st.cpf = cpfA := by
  have h1 := processRecord_of_not_aborts czmil (by decide) cfg50 spikeCwf cpfA 0 (by decide)
  have h2 := processRecord_of_not_aborts czmil (by decide) cfgOff spikeCwf cpfA 0 (by decide)
  have a := C15_changed_flag czmil (by decide) cfg50 spikeCwf cpfA 0 _ h1
  have b := C15_changed_flag czmil (by decide) cfgOff spikeCwf cpfA 0 _ h2
  have m1 : recMod czmil cfg50 spikeCwf cpfA 8 0 = true := by decide
  have m2 : recMod czmil cfgOff spikeCwf cpfA 8 0 = false := by decide
  exact ⟨⟨_, h1, m1, a.1.mp m1⟩, ⟨_, h2, m2, b.2 m2⟩⟩

/-! ## C17: other filter invalidations -/

theorem chanKills_eraseIdx_of_not_valid (C : CzmilConsts) (cfg : Config)
    (cwf : CZMIL_CWF_Data) (j : Nat) (rets : List CZMIL_Return_Data) (m : Nat)
    (r : CZMIL_Return_Data) (hr : rets[m]? = some r)
    (hv : isValid C (resetReturn C cfg.threshold r) = false) :
    chanKills C cfg cwf j (rets.eraseIdx m) = chanKills C cfg cwf j rets := by
  have e := countP_eraseIdx_of_not (fun x => isValid C (resetReturn C cfg.threshold x)) rets m r
    hr hv
  simp only [chanKills, validAfterReset, afterReset_eq, List.countP_map]
  rw [show (isValid C ∘ resetReturn C cfg.threshold) =
    (fun x => isValid C (resetReturn C cfg.threshold x)) from rfl, e]

theorem chanAborts_eraseIdx_of_not_valid (C : CzmilConsts) (cfg : Config)
    (cwf : CZMIL_CWF_Data) (j : Nat) (rets : List CZMIL_Return_Data) (m : Nat)
    (r : CZMIL_Return_Data) (hr : rets[m]? = some r)
    (hv : isValid C (resetReturn C cfg.threshold r) = false) :
    chanAborts C cfg cwf j (rets.eraseIdx m) = chanAborts C cfg cwf j rets := by
  have e := any_eraseIdx_of_not (fun x => isValid C (resetReturn C cfg.threshold x)) rets m r
    hr hv
  simp only [chanAborts, afterReset_eq, List.any_map]
  rw [show (isValid C ∘ resetReturn C cfg.threshold) =
    (fun x => isValid C (resetReturn C cfg.threshold x)) from rfl, e]

/-- Without a return that is not valid after the stale reset, the processing
of the record completes with the same `kill_count`. -/
theorem processRecord_eraseReturn (C : CzmilConsts) (hC : C.WellFormed) (cfg : Config)
    (cwf : CZMIL_CWF_Data) (cpf : CZMIL_CPF_Data) (k : Nat) (st : RecState)
    (h : processRecord C cfg cwf cpf k = some st) (j m : Nat) (r : CZMIL_Return_Data)
    (hr : (cpf.channel j)[m]? = some r)
    (hv : isValid C (resetReturn C cfg.threshold r) = false) :
    ∃ st2, processRecord C cfg cwf (eraseReturn cpf j m) k = some st2 ∧
      st2.kill_count = st.kill_count := by
  have hk : ∀ i, chanKills C cfg cwf i ((eraseReturn cpf j m).channel i) =
      chanKills C cfg cwf i (cpf.channel i) := by
    intro i
    by_cases hi : i = j
    · subst hi
      simp only [eraseReturn, if_true]
      exact chanKills_eraseIdx_of_not_valid C cfg cwf i _ m r hr hv
    · simp only [eraseReturn, if_neg hi]
  have ha : ∀ i, chanAborts C cfg cwf i ((eraseReturn cpf j m).channel i) =
      chanAborts C cfg cwf i (cpf.channel i) := by
    intro i
    by_cases hi : i = j
    · subst hi
      simp only [eraseReturn, if_true]
      exact chanAborts_eraseIdx_of_not_valid C cfg cwf i _ m r hr hv
    · simp only [eraseReturn, if_neg hi]
  rw [processRecord_eq C hC] at h
  rw [processRecord_eq C hC, recAborts_pointwise C cfg cwf _ cpf 8 0 ha,
    recKills_pointwise C cfg cwf _ cpf 8 0 hk]
  by_cases hab : recAborts C cfg cwf cpf 8 0 = true
  · simp [hab] at h
  · simp only [hab, if_false, Option.some.injEq, Bool.false_eq_true] at h ⊢
    exact ⟨_, rfl, by rw [← h]⟩

/-- C17: when the processing of a record completes, a return that before it is
filter-invalid with a reason other than digitizer-noise is the same return
after it (same status word, same reason), whatever the ceilings are now, and
adds nothing to `kill_count`: the processing of the record without this return
completes with the same `kill_count`. -/
theorem C17_other_invalidations_kept (C : CzmilConsts) (hC : C.WellFormed) (cfg : Config)
    (cwf : CZMIL_CWF_Data) (cpf : CZMIL_CPF_Data) (k : Nat) (st : RecState)
    (h : processRecord C cfg cwf cpf k = some st)
    (j m : Nat) (r : CZMIL_Return_Data)
    (hr : (cpf.channel j)[m]? = some r)
    (hf : isFilterInval C r = true) (hn : r.filter_reason ≠ C.CZMIL_DIGITIZER_NOISE) :
    (st.cpf.channel j)[m]? = some r ∧
    ∃ st2, processRecord C cfg cwf (eraseReturn cpf j m) k = some st2 ∧
      st2.kill_count = st.kill_count := by
  have hs : isStale C cfg.threshold r = false := by
    simp [isStale, hn]
  have hre : resetReturn C cfg.threshold r = r := resetReturn_of_not_stale C _ r hs
  have hv : isValid C r = false := by
    by_contra hc
    have hv1 : isValid C r = true := by simpa using hc
    rw [isFilterInval_of_isValid C hC r hv1] at hf
    exact Bool.false_ne_true hf
  have hv2 : isValid C (resetReturn C cfg.threshold r) = false := by rw [hre]; exact hv
  refine ⟨?_, processRecord_eraseReturn C hC cfg cwf cpf k st h j m r hr hv2⟩
  rw [processRecord_channel C hC cfg cwf cpf k st h j]
  by_cases hp : processed cfg j = true
  · simp only [hp, if_true, List.getElem?_map, hr, Option.map_some',
      finalReturn_of_not_valid C cfg cwf j r hv2, hre]
  · have hp0 : processed cfg j = false := by simpa using hp
    simp only [hp0, Bool.false_eq_true, if_false, hr]

/-- C17 on `cpfA`: the return `⟨1, 25, 10⟩` of channel 0, condemned for the start
amplitude, is kept by a run whose ceilings are disabled and whose detector
fires. -/
theorem C17_other_invalidations_kept_witness :
    ∃ st st2, processRecord czmil cfg50 spikeCwf cpfA 0 = some st ∧
      (st.cpf.channel 0)[3]? = some ⟨1, 25, 10⟩ ∧
      processRecord czmil cfg50 spikeCwf (eraseReturn cpfA 0 3) 0 = some st2 ∧
      st2.kill_count = st.kill_count := by
  have h := processRecord_of_not_aborts czmil (by decide) cfg50 spikeCwf cpfA 0 (by decide)
  obtain ⟨h1, st2, h2, h3⟩ :=
    C17_other_invalidations_kept czmil (by decide) cfg50 spikeCwf cpfA 0 _ h 0 3 ⟨1, 25, 10⟩
      (by decide) (by decide) (by decide)
  exact ⟨_, st2, h, h1, h2, h3⟩

/-! ## C18: both tests fire -/

theorem packets_of_noiseFired (cfg : Config) (cwf : CZMIL_CWF_Data) (j : Nat)
    (h : noiseFired cfg cwf j = true) : cwf.number_of_packets j * 64 ≠ 0 := by
  intro h0
  simp only [noiseFired, h0, Nat.zero_sub, exceedsIn, Bool.and_false,
    Bool.false_eq_true] at h

/-- C18: in a processed channel on which the noise detector (so `threshold > 0`)
and the amplitude gate both fire, the pass completes and every return that is
valid after the stale reset ends filter-invalid with reason digitizer-noise,
not start-amplitude-exceeded. The amplitude step changes only returns that are
valid when it runs, so none that the noise step has condemned. -/
theorem C18_noise_reason_first (C : CzmilConsts) (hC : C.WellFormed) (cfg : Config)
    (cwf : CZMIL_CWF_Data) (j : Nat) (st : ChanState)
    (hn : noiseFired cfg cwf j = true) (ha : ampCheck cfg cwf j = true) :
    (∃ st', processChannel C cfg cwf j st = some st' ∧
      ∀ (m : Nat) (r : CZMIL_Return_Data),
        (afterReset C cfg.threshold st.returns)[m]? = some r → isValid C r = true →
        ∃ r', st'.returns[m]? = some r' ∧
          condemnedWith C C.CZMIL_DIGITIZER_NOISE r' ∧
          r'.filter_reason ≠ C.CZMIL_START_AMP_EXCEEDS_THRESHOLD) ∧
    ∀ (s : ChanState) (m : Nat) (r r' : CZMIL_Return_Data),
      s.returns[m]? = some r → (ampCondemn C cfg cwf j s).returns[m]? = some r' →
      r' ≠ r →
        isValid C r = true ∧ ¬ condemnedWith C C.CZMIL_DIGITIZER_NOISE r ∧
          r'.filter_reason = C.CZMIL_START_AMP_EXCEEDS_THRESHOLD := by
  constructor
  · have hab : chanAborts C cfg cwf j st.returns = false := by
      simp [chanAborts, packets_of_noiseFired cfg cwf j hn]
    rw [processChannel_eq C hC, hab]
    refine ⟨_, rfl, ?_⟩
    intro m r hm hv
    simp only [hn, if_true, List.getElem?_map, hm, Option.map_some']
    have hc := condemnedWith_condemnReturn C hC C.CZMIL_DIGITIZER_NOISE r hv
    refine ⟨_, rfl, hc, ?_⟩
    rw [hc.2]
    exact hC.2.2.1
  · intro s m r r' hr hr' hne
    simp only [ampCondemn, ha, if_true, condemnLoop_eq, List.getElem?_map, hr,
      Option.map_some', Option.some.injEq] at hr'
    subst hr'
    by_cases hv : isValid C r = true
    · refine ⟨hv, ?_, by simp [condemnReturn, hv, markReturn]⟩
      intro hc
      have := isFilterInval_of_isValid C hC r hv
      rw [hc.1] at this
      exact Bool.noConfusion this
    · have hv0 : isValid C r = false := by simpa using hv
      exact absurd (condemnReturn_of_not_valid C _ r hv0) hne

/-- C18 on `fourReturns` with the detector and the gate both firing: the two
returns that are valid after the reset end with reason digitizer-noise. -/
theorem C18_noise_reason_first_witness :
    (∃ st', processChannel czmil cfgBoth loudCwf 0 ⟨fourReturns, 0, false⟩ = some st' ∧
      st'.returns = [⟨1, 24, 7⟩, ⟨2, 0, 8⟩, ⟨1, 24, 9⟩, ⟨1, 25, 10⟩] ∧
      ∀ (m : Nat) (r : CZMIL_Return_Data),
        (afterReset czmil cfgBoth.threshold fourReturns)[m]? = some r →
        isValid czmil r = true →
        ∃ r', st'.returns[m]? = some r' ∧
          condemnedWith czmil czmil.CZMIL_DIGITIZER_NOISE r' ∧
          r'.filter_reason ≠ czmil.CZMIL_START_AMP_EXCEEDS_THRESHOLD) := by
  obtain ⟨⟨st', h1, h2⟩, _⟩ :=
    C18_noise_reason_first czmil (by decide) cfgBoth loudCwf 0 ⟨fourReturns, 0, false⟩
      (by decide) (by decide)
  refine ⟨st', h1, ?_, h2⟩
  have e : processChannel czmil cfgBoth loudCwf 0 ⟨fourReturns, 0, false⟩ =
      some ⟨[⟨1, 24, 7⟩, ⟨2, 0, 8⟩, ⟨1, 24, 9⟩, ⟨1, 25, 10⟩], 2, true⟩ := by decide
  rw [e] at h1
  simp only [Option.some.injEq] at h1
  rw [← h1]

/-! ## C11: channel isolation -/

theorem exceedsIn_congr (t : Int) (cwf cwf' : CZMIL_CWF_Data) (j n k : Nat)
    (hs : ∀ i, cwf'.channel j i = cwf.channel j i) :
    exceedsIn t cwf' j n k = exceedsIn t cwf j n k := by
  induction n generalizing k with
  | zero => rfl
  | succ n ih => simp only [exceedsIn, exceedsAt, diff, hs, ih]

theorem noiseFired_congr (cfg cfg' : Config) (cwf cwf' : CZMIL_CWF_Data) (j : Nat)
    (ht : cfg'.threshold = cfg.threshold)
    (hp : cwf'.number_of_packets j = cwf.number_of_packets j)
    (hs : ∀ i, cwf'.channel j i = cwf.channel j i) :
    noiseFired cfg' cwf' j = noiseFired cfg cwf j := by
  simp only [noiseFired, ht, hp, exceedsIn_congr cfg.threshold cwf cwf' j _ 1 hs]

theorem ampCheck_congr (cfg cfg' : Config) (cwf cwf' : CZMIL_CWF_Data) (j : Nat)
    (hsh : cfg'.shal_amp = cfg.shal_amp) (hd : cfg'.deep_amp = cfg.deep_amp)
    (hs : ∀ i, cwf'.channel j i = cwf.channel j i) :
    ampCheck cfg' cwf' j = ampCheck cfg cwf j := by
  simp only [ampCheck, hsh, hd, hs]

theorem finalReturn_congr (C : CzmilConsts) (cfg cfg' : Config) (cwf cwf' : CZMIL_CWF_Data)
    (j : Nat) (ht : cfg'.threshold = cfg.threshold)
    (hsh : cfg'.shal_amp = cfg.shal_amp) (hd : cfg'.deep_amp = cfg.deep_amp)
    (hp : cwf'.number_of_packets j = cwf.number_of_packets j)
    (hs : ∀ i, cwf'.channel j i = cwf.channel j i) (r : CZMIL_Return_Data) :
    finalReturn C cfg' cwf' j r = finalReturn C cfg cwf j r := by
  simp only [finalReturn, noiseFired_congr cfg cfg' cwf cwf' j ht hp hs,
    ampCheck_congr cfg cfg' cwf cwf' j hsh hd hs, ht]

theorem chanKills_congr (C : CzmilConsts) (cfg cfg' : Config) (cwf cwf' : CZMIL_CWF_Data)
    (j : Nat) (ht : cfg'.threshold = cfg.threshold)
    (hsh : cfg'.shal_amp = cfg.shal_amp) (hd : cfg'.deep_amp = cfg.deep_amp)
    (hp : cwf'.number_of_packets j = cwf.number_of_packets j)
    (hs : ∀ i, cwf'.channel j i = cwf.channel j i) (rets : List CZMIL_Return_Data) :
    chanKills C cfg' cwf' j rets = chanKills C cfg cwf j rets := by
  simp only [chanKills, validAfterReset, noiseFired_congr cfg cfg' cwf cwf' j ht hp hs,
    ampCheck_congr cfg cfg' cwf cwf' j hsh hd hs, ht]

/-- The count of a record is the count with channel `j` not selected plus what
channel `j` adds. -/
theorem recKills_deselect (C : CzmilConsts) (cfg : Config) (cwf : CZMIL_CWF_Data)
    (cpf : CZMIL_CPF_Data) (j n j0 : Nat) :
    recKills C cfg cwf cpf n j0 =
      recKills C (deselect cfg j) cwf cpf n j0 +
        (if j0 ≤ j ∧ j < j0 + n ∧ cfg.channel j = true then
          chanKills C cfg cwf j (cpf.channel j) else 0) := by
  induction n generalizing j0 with
  | zero =>
    have : ¬ (j0 ≤ j ∧ j < j0 + 0 ∧ cfg.channel j = true) := by omega
    simp only [recKills, if_neg this]
  | succ n ih =>
    simp only [recKills, ih (j0 + 1)]
    have hk : ∀ i rets, chanKills C (deselect cfg j) cwf i rets = chanKills C cfg cwf i rets :=
      fun _ _ => rfl
    by_cases hj : j0 = j
    · subst hj
      have h1 : ¬ (j0 + 1 ≤ j0 ∧ j0 < j0 + 1 + n ∧ cfg.channel j0 = true) := by omega
      have h2 : (deselect cfg j0).channel j0 = false := by simp [deselect]
      simp only [if_neg h1, h2, Bool.false_eq_true, if_false, Nat.add_zero, Nat.zero_add]
      by_cases he : cfg.channel j0 = true
      · have h3 : j0 ≤ j0 ∧ j0 < j0 + (n + 1) ∧ cfg.channel j0 = true :=
          ⟨le_refl _, by omega, he⟩
        rw [if_pos h3, if_pos he]
        omega
      · have h3 : ¬ (j0 ≤ j0 ∧ j0 < j0 + (n + 1) ∧ cfg.channel j0 = true) :=
          fun h => he h.2.2
        rw [if_neg h3, if_neg he]
        omega
    · have h2 : (deselect cfg j).channel j0 = cfg.channel j0 := by simp [deselect, hj]
      rw [h2, hk]
      by_cases hp : j0 + 1 ≤ j ∧ j < j0 + 1 + n ∧ cfg.channel j = true
      · have h3 : j0 ≤ j ∧ j < j0 + (n + 1) ∧ cfg.channel j = true :=
          ⟨by omega, by omega, hp.2.2⟩
        simp only [if_pos hp, if_pos h3]
        omega
      · have h3 : ¬ (j0 ≤ j ∧ j < j0 + (n + 1) ∧ cfg.channel j = true) := by
          intro h
          exact hp ⟨by omega, by omega, h.2.2⟩
        simp only [if_neg hp, if_neg h3]
        omega

theorem recAborts_deselect (C : CzmilConsts) (cfg : Config) (cwf : CZMIL_CWF_Data)
    (cpf : CZMIL_CPF_Data) (j n j0 : Nat) (h : recAborts C cfg cwf cpf n j0 = false) :
    recAborts C (deselect cfg j) cwf cpf n j0 = false := by
  rw [Bool.eq_false_iff] at h ⊢
  intro h2
  apply h
  rw [recAborts_iff] at h2 ⊢
  obtain ⟨i, h1, h3, h4, h5⟩ := h2
  refine ⟨i, h1, h3, ?_, h5⟩
  by_cases hi : i = j
  · subst hi; simp [deselect] at h4
  · simpa [deselect, hi] using h4

/-- C11: take two records, two waveform records and two configurations that
agree on channel `j` (its returns, its packet count and samples, whether it is
selected) and on the three thresholds, and differ at will elsewhere. When the
processing of both completes, the returns of channel `j` are the same after
both; a channel that is not processed keeps its returns; and what channel `j`
adds to `kill_count` (the count of the record less the count of the same record
processed with channel `j` not selected, which completes too) is the same in
both. -/
theorem C11_channel_isolation (C : CzmilConsts) (hC : C.WellFormed)
    (cfg cfg' : Config) (cwf cwf' : CZMIL_CWF_Data) (cpf cpf' : CZMIL_CPF_Data)
    (k k' j : Nat) (st st' : RecState)
    (hsel : cfg'.channel j = cfg.channel j)
    (ht : cfg'.threshold = cfg.threshold)
    (hsh : cfg'.shal_amp = cfg.shal_amp) (hd : cfg'.deep_amp = cfg.deep_amp)
    (hret : cpf'.channel j = cpf.channel j)
    (hp : cwf'.number_of_packets j = cwf.number_of_packets j)
    (hs : ∀ i, cwf'.channel j i = cwf.channel j i)
    (h : processRecord C cfg cwf cpf k = some st)
    (h' : processRecord C cfg' cwf' cpf' k' = some st') :
    st'.cpf.channel j = st.cpf.channel j ∧
    (processed cfg j = false → st.cpf.channel j = cpf.channel j) ∧
    ∃ st0 st0', processRecord C (deselect cfg j) cwf cpf k = some st0 ∧
      processRecord C (deselect cfg' j) cwf' cpf' k' = some st0' ∧
      st0.kill_count ≤ st.kill_count ∧ st0'.kill_count ≤ st'.kill_count ∧
      st'.kill_count - st0'.kill_count = st.kill_count - st0.kill_count := by
  have hpr : processed cfg' j = processed cfg j := by simp only [processed, hsel]
  refine ⟨?_, ?_, ?_⟩
  · rw [processRecord_channel C hC cfg cwf cpf k st h j,
      processRecord_channel C hC cfg' cwf' cpf' k' st' h' j, hpr, hret]
    by_cases hpj : processed cfg j = true
    · simp only [hpj, if_true]
      apply List.map_congr_left
      intro r _
      exact finalReturn_congr C cfg cfg' cwf cwf' j ht hsh hd hp hs r
    · have hp0 : processed cfg j = false := by simpa using hpj
      simp only [hp0, Bool.false_eq_true, if_false]
  · intro hp0
    rw [processRecord_channel C hC cfg cwf cpf k st h j]
    simp only [hp0, Bool.false_eq_true, if_false]
  · rw [processRecord_eq C hC] at h h'
    by_cases hab : recAborts C cfg cwf cpf 8 0 = true
    · simp [hab] at h
    by_cases hab' : recAborts C cfg' cwf' cpf' 8 0 = true
    · simp [hab'] at h'
    have hab0 : recAborts C cfg cwf cpf 8 0 = false := by simpa using hab
    have hab0' : recAborts C cfg' cwf' cpf' 8 0 = false := by simpa using hab'
    simp only [hab0, hab0', if_false, Option.some.injEq, Bool.false_eq_true] at h h'
    refine ⟨_, _, processRecord_of_not_aborts C hC _ cwf cpf k
        (recAborts_deselect C cfg cwf cpf j 8 0 hab0),
      processRecord_of_not_aborts C hC _ cwf' cpf' k'
        (recAborts_deselect C cfg' cwf' cpf' j 8 0 hab0'), ?_⟩
    rw [← h, ← h']
    have e := recKills_deselect C cfg cwf cpf j 8 0
    have e' := recKills_deselect C cfg' cwf' cpf' j 8 0
    have hkk := chanKills_congr C cfg cfg' cwf cwf' j ht hsh hd hp hs (cpf.channel j)
    rw [hsel, hret, hkk] at e'
    simp only at e e' ⊢
    omega

/-- C11 on channel 0 of two records that differ in channel 1 (returns,
waveform and selection): channel 0 ends the same and adds 2 to the count in
both, while the counts of the records are 2 and 4. -/
theorem C11_channel_isolation_witness :
    ∃ st st' st0 st0', processRecord czmil cfgBoth loudCwf cpfA 0 = some st ∧
      processRecord czmil cfgBoth01 loudCwf1 cpfA1 0 = some st' ∧
      st.kill_count = 2 ∧ st'.kill_count = 4 ∧
      st'.cpf.channel 0 = st.cpf.channel 0 ∧
      processRecord czmil (deselect cfgBoth 0) loudCwf cpfA 0 = some st0 ∧
      processRecord czmil (deselect cfgBoth01 0) loudCwf1 cpfA1 0 = some st0' ∧
      st'.kill_count - st0'.kill_count = st.kill_count - st0.kill_count := by
  have h := processRecord_of_not_aborts czmil (by decide) cfgBoth loudCwf cpfA 0 (by decide)
  have h' := processRecord_of_not_aborts czmil (by decide) cfgBoth01 loudCwf1 cpfA1 0
    (by decide)
  obtain ⟨h1, _, st0, st0', h3, h4, _, _, h5⟩ :=
    C11_channel_isolation czmil (by decide) cfgBoth cfgBoth01 loudCwf loudCwf1 cpfA cpfA1
      0 0 0 _ _ (by decide) (by decide) (by decide) (by decide) (by decide) (by decide)
      (fun i => by simp [loudCwf1]) h h'
  exact ⟨_, _, st0, st0', h, h', by decide, by decide, h1, h3, h4, h5⟩

/-! ## C14, C20: the validation of the arguments -/

theorem wrap32_wrap32_add (a b : Int) : wrap32 (wrap32 a + b) = wrap32 (a + b) := by
  unfold wrap32
  omega

theorem check_filt_eq (cfg : Config) :
    check_filt cfg = wrap32 (cfg.threshold + cfg.shal_amp + cfg.deep_amp) :=
  wrap32_wrap32_add _ _

theorem wrap32_of_fits (x : Int) (h1 : -2147483648 ≤ x) (h2 : x ≤ 2147483647) :
    wrap32 x = x := by
  unfold wrap32
  omega

theorem anySelected_iff (channel : Nat → Bool) (n i : Nat) :
    anySelected channel n i = true ↔ ∃ k, i ≤ k ∧ k < i + n ∧ channel k = true := by
  induction n generalizing i with
  | zero =>
    simp only [anySelected, Bool.false_eq_true, false_iff]
    rintro ⟨k, h1, h2, _⟩
    omega
  | succ n ih =>
    unfold anySelected
    by_cases hc : channel i = true
    · simp only [hc, if_true, true_iff]
      exact ⟨i, le_refl i, by omega, hc⟩
    · simp only [hc, if_false, ih, Bool.false_eq_true]
      constructor
      · rintro ⟨k, h1, h2, h3⟩
        exact ⟨k, by omega, by omega, h3⟩
      · rintro ⟨k, h1, h2, h3⟩
        by_cases hk : k = i
        · subst hk; exact absurd h3 hc
        · exact ⟨k, by omega, by omega, h3⟩

/-- Without a channel flag the program ends with the usage text. -/
theorem usageExit_of_no_channel (cfg : Config) (optind argc : Int)
    (h : ∀ i, i < 9 → cfg.channel i = false) : usageExit cfg optind argc = true := by
  have : anySelected cfg.channel 9 0 = false := by
    rw [Bool.eq_false_iff, Ne, anySelected_iff]
    rintro ⟨k, _, h2, h3⟩
    rw [h k (by omega)] at h3
    exact Bool.false_ne_true h3
  simp [usageExit, this]

/-- Without the file name the program ends with the usage text. -/
theorem usageExit_of_no_file (cfg : Config) (optind argc : Int) (h : optind ≥ argc) :
    usageExit cfg optind argc = true := by
  simp [usageExit, h]

/-- With three thresholds that are all `≤ 0` and whose sum fits in 32 bits the
program ends with the usage text. -/
theorem usageExit_of_nonpos (cfg : Config) (optind argc : Int)
    (h1 : cfg.threshold ≤ 0) (h2 : cfg.shal_amp ≤ 0) (h3 : cfg.deep_amp ≤ 0)
    (hfit : -2147483648 ≤ cfg.threshold + cfg.shal_amp + cfg.deep_amp) :
    usageExit cfg optind argc = true := by
  have : check_filt cfg ≤ 0 := by
    rw [check_filt_eq, wrap32_of_fits _ hfit (by omega)]
    omega
  simp [usageExit, this]

/-- C14: the code at the failing input. With the arguments
`-1 -a -2147483648 -s -1 FILE.cpf` a channel is selected, the file name is
there, and the three thresholds are 32-bit integers that are all `≤ 0`; their
sum wraps to 2147483647, so `check_filt <= 0` is false and `usage ()` is not
called. -/
theorem C14_usage_not_reached :
    (-2147483648 ≤ cfgWrap.threshold ∧ cfgWrap.threshold ≤ 0) ∧
    (-2147483648 ≤ cfgWrap.shal_amp ∧ cfgWrap.shal_amp ≤ 0) ∧
    (-2147483648 ≤ cfgWrap.deep_amp ∧ cfgWrap.deep_amp ≤ 0) ∧
    check_filt cfgWrap = 2147483647 ∧
    usageExit cfgWrap 6 7 = false := by
  decide

/-- C20: with a channel selected and the file name given, `usage ()` is not
called exactly when the 32-bit sum `threshold + shal_amp + deep_amp` is `> 0`;
so `threshold = 5`, `shal_amp = -10`, `deep_amp = 0` is rejected although the
noise threshold is positive. -/
theorem C20_validation_by_sum (cfg : Config) (optind argc : Int)
    (hsel : ∃ i, i < 9 ∧ cfg.channel i = true) (hfile : optind < argc) :
    (usageExit cfg optind argc = false ↔
      wrap32 (cfg.threshold + cfg.shal_amp + cfg.deep_amp) > 0) ∧
    usageExit { cfg with threshold := 5, shal_amp := -10, deep_amp := 0 } optind argc = true := by
  have hs : anySelected cfg.channel 9 0 = true := by
    rw [anySelected_iff]
    obtain ⟨i, h1, h2⟩ := hsel
    exact ⟨i, Nat.zero_le i, by omega, h2⟩
  have hf : ¬ optind ≥ argc := by omega
  constructor
  · simp only [usageExit, hs, hf, Bool.not_true, Bool.false_or, decide_False, Bool.or_false,
      decide_eq_false_iff_not, check_filt_eq]
    omega
  · have : check_filt { cfg with threshold := 5, shal_amp := -10, deep_amp := 0 } ≤ 0 := by
      simp only [check_filt]
      decide
    simp [usageExit, this]

/-- C20 at `-1 -a 5 -s -10`: rejected; and at `-1 -a 5 -s -3`, whose sum is 2:
accepted. -/
theorem C20_validation_by_sum_witness :
    ((usageExit ⟨fun j => j == 0, 5, -3, 0⟩ 6 7 = false ↔
        wrap32 ((5 : Int) + (-3) + 0) > 0) ∧
      usageExit ⟨fun j => j == 0, 5, -10, 0⟩ 6 7 = true) ∧
    usageExit ⟨fun j => j == 0, 5, -3, 0⟩ 6 7 = false :=
  ⟨C20_validation_by_sum ⟨fun j => j == 0, 5, -3, 0⟩ 6 7 ⟨0, by decide, rfl⟩ (by decide),
    by decide⟩

/-! ## C19: the second differences of the spike -/

/-- The claim C19 fails: none of the 62 values that the detector compares with
the threshold on the spike waveform is 200; they are 0, 100, -200, 100 and then
0 throughout. -/
theorem C19_second_differences_counterexample :
    (secondDiffs spikeCwf 0).length = 62 ∧
    (secondDiffs spikeCwf 0).take 5 = [0, 100, -200, 100, 0] ∧
    decide ((200 : Int) ∈ secondDiffs spikeCwf 0) = false := by
  decide

/-- C19, amended: for a waveform that begins `[0, 0, 0, 100, 0, 0, 0]`, the
second differences `diff[k] - diff[k - 1]` over these samples (`k` from 1 to 5)
are 0, 100, -200, 100, 0: they include -200 at the spike and 100 on either side
of it, and the largest is 100. -/
theorem C19_second_differences (cwf : CZMIL_CWF_Data) (j : Nat)
    (hw : ∀ k, k < 7 → cwf.channel j k = if k = 3 then 100 else 0) :
    (List.range' 1 5).map (fun k => diff cwf j k - diff cwf j (k - 1)) =
      [0, 100, -200, 100, 0] := by
  have h0 := hw 0 (by omega)
  have h1 := hw 1 (by omega)
  have h2 := hw 2 (by omega)
  have h3 := hw 3 (by omega)
  have h4 := hw 4 (by omega)
  have h5 := hw 5 (by omega)
  have h6 := hw 6 (by omega)
  simp only [if_true, if_false] at h0 h1 h2 h3 h4 h5 h6
  norm_num at h0 h1 h2 h3 h4 h5 h6
  simp only [List.range', List.map, diff, toInt16, h0, h1, h2, h3, h4, h5, h6]
  decide

/-- C19 (amended) on the spike waveform. -/
theorem C19_second_differences_witness :
    (List.range' 1 5).map (fun k => diff spikeCwf 0 k - diff spikeCwf 0 (k - 1)) =
      [0, 100, -200, 100, 0] :=
  C19_second_differences spikeCwf 0 (fun k _ => by simp [spikeCwf])

/-! ## C16: prior noise decisions -/

/-- With `threshold > 0` the stale reset takes a return that a prior run
condemned for digitizer noise back to what it was. -/
theorem resetReturn_of_priorNoise (C : CzmilConsts) (hC : C.WellFormed) (t : Int)
    (ht : 0 < t) (r r' : CZMIL_Return_Data) (h : priorNoise C r r') :
    resetReturn C t r' = resetReturn C t r := by
  rcases h with h | ⟨hf, hv, h⟩
  · rw [h]
  · have hs : isStale C t r = false := by simp [isStale, hf]
    have h0 : r.status &&& C.CZMIL_RETURN_FILTER_INVAL = 0 := by
      simpa [isFilterInval] using hf
    have h3 := lor_land_self_ne_zero r.status hC.1
    rw [h, resetReturn_of_not_stale C t r hs]
    have e : resetReturn C t (markReturn C C.CZMIL_DIGITIZER_NOISE r) =
        { r with filter_reason := C.CZMIL_WAVEFORM_VALID } := by
      simp [resetReturn, isStale, isFilterInval, markReturn, ht, h3,
        andNot_lor_of_land_eq_zero h0]
    rw [e, ← hv]

theorem afterReset_of_priorNoise (C : CzmilConsts) (hC : C.WellFormed) (t : Int)
    (ht : 0 < t) (rs rs' : List CZMIL_Return_Data)
    (h : List.Forall₂ (priorNoise C) rs rs') :
    afterReset C t rs' = afterReset C t rs := by
  rw [afterReset_eq, afterReset_eq]
  induction h with
  | nil => rfl
  | cons hr _ ih =>
    simp only [List.map_cons, ih, resetReturn_of_priorNoise C hC t ht _ _ hr]

/-- Independence from prior noise decisions in the channels the loop of line 208
reaches: with `threshold > 0`, two records whose processed channels differ
only in returns that the second holds as a prior run condemned them for
digitizer noise, and whose other channels are the same, are processed to the
same record and the same `kill_count` (or the run exits on both). -/
theorem noise_history_independent (C : CzmilConsts) (hC : C.WellFormed) (cfg : Config)
    (cwf : CZMIL_CWF_Data) (cpf cpf' : CZMIL_CPF_Data) (k : Nat)
    (ht : 0 < cfg.threshold)
    (hp : ∀ j, processed cfg j = true →
      List.Forall₂ (priorNoise C) (cpf.channel j) (cpf'.channel j))
    (hn : ∀ j, processed cfg j = false → cpf'.channel j = cpf.channel j) :
    (processRecord C cfg cwf cpf' k).map (fun st => (st.cpf, st.kill_count)) =
      (processRecord C cfg cwf cpf k).map (fun st => (st.cpf, st.kill_count)) := by
  have hr : ∀ j, afterReset C cfg.threshold (cpf'.channel j) =
      afterReset C cfg.threshold (cpf.channel j) := by
    intro j
    by_cases hj : processed cfg j = true
    · exact afterReset_of_priorNoise C hC _ ht _ _ (hp j hj)
    · rw [hn j (by simpa using hj)]
  have ha : ∀ j, chanAborts C cfg cwf j (cpf'.channel j) =
      chanAborts C cfg cwf j (cpf.channel j) := by
    intro j; simp only [chanAborts, hr]
  have hk : ∀ j, chanKills C cfg cwf j (cpf'.channel j) =
      chanKills C cfg cwf j (cpf.channel j) := by
    intro j; simp only [chanKills, validAfterReset, hr]
  have hf : recFinal C cfg cwf cpf' 8 0 = recFinal C cfg cwf cpf 8 0 := by
    simp only [recFinal, CZMIL_CPF_Data.mk.injEq]
    funext j
    by_cases hj : 0 ≤ j ∧ j < 0 + 8 ∧ cfg.channel j = true
    · simp only [if_pos hj, chanFinal, hr]
    · have : processed cfg j = false := by
        simp only [processed, Bool.and_eq_false_imp, decide_eq_true_eq]
        intro h8
        by_contra hc
        exact hj ⟨Nat.zero_le j, by omega, by simpa using hc⟩
      simp only [if_neg hj, hn j this]
  rw [processRecord_eq C hC, processRecord_eq C hC, recAborts_pointwise C cfg cwf _ cpf 8 0 ha,
    recKills_pointwise C cfg cwf _ cpf 8 0 hk, hf]
  by_cases hab : recAborts C cfg cwf cpf 8 0 = true
  · simp [hab]
  · simp [hab]

/-- C16: the code at the failing input. With the arguments `-9 -a 250` the deep
channel (index 8) is selected and the arguments pass the validation. Two
records that differ only in the return of channel 8 (filter-invalid bit clear
with reason valid in one, filter-invalid with reason digitizer-noise in the
other) keep that difference: the loop of line 208 stops before index 8, so the
prior noise decision is not reset although neither the detector nor the gate
fires. The body of the loop run at `j = 8` does reset it. -/
theorem C16_deep_channel_keeps_history :
    cfg9.channel 8 = true ∧ usageExit cfg9 4 5 = false ∧ 0 < cfg9.threshold ∧
    priorNoise czmil ⟨0, 0, 11⟩ ⟨1, 24, 11⟩ ∧
    noiseFired cfg9 spikeCwf 8 = false ∧ ampCheck cfg9 spikeCwf 8 = false ∧
    (processRecord czmil cfg9 spikeCwf cpfNew 0).map (fun st => st.cpf.channel 8) =
      some [⟨0, 0, 11⟩] ∧
    (processRecord czmil cfg9 spikeCwf cpfOld 0).map (fun st => st.cpf.channel 8) =
      some [⟨1, 24, 11⟩] ∧
    processChannel czmil cfg9 spikeCwf 8 ⟨cpfOld.channel 8, 0, false⟩ =
      some ⟨[⟨0, 0, 11⟩], 0, true⟩ := by
  refine ⟨by decide, by decide, by decide, Or.inr (by decide), by decide, by decide,
    by decide, by decide, by decide⟩

/-! ## C2: the spike on an enabled channel -/

/-- C2: the code at the failing input. With the arguments `-9 -a 50` the deep
channel (index 8) is enabled, the arguments pass the validation and both
amplitude ceilings are disabled. The waveform of channel 8 is
`[0, 0, 0, 100, 0, 0, 0]` padded to one packet, on which the test of line 263
succeeds (the second difference 100 exceeds 50), and channel 8 holds one valid
return. The loop of line 208 stops before index 8: the processing completes
with the return still valid with reason 0, `kill_count` 0 and `mod_flag`
false. The body of the loop run at `j = 8` does condemn and count it. -/
theorem C2_deep_channel_spike_not_detected :
    cfg9at50.channel 8 = true ∧ usageExit cfg9at50 4 5 = false ∧
    cfg9at50.threshold = 50 ∧ cfg9at50.shal_amp ≤ 0 ∧ cfg9at50.deep_amp ≤ 0 ∧
    spikeCwf8.number_of_packets 8 = 1 ∧
    (List.range 7).map (spikeCwf8.channel 8) = [0, 0, 0, 100, 0, 0, 0] ∧
    noiseFired cfg9at50 spikeCwf8 8 = true ∧
    isValid czmil ⟨0, 0, 11⟩ = true ∧
    (processRecord czmil cfg9at50 spikeCwf8 cpfNew 0).map
        (fun st => (st.cpf.channel 8, st.kill_count, st.mod_flag)) =
      some ([⟨0, 0, 11⟩], 0, false) ∧
    processChannel czmil cfg9at50 spikeCwf8 8 ⟨cpfNew.channel 8, 0, false⟩ =
      some ⟨[⟨1, 24, 11⟩], 1, true⟩ := by
  decide

end CzmilNoiseFilter
